import Mathlib

/-
  Verification development for the ACE playbook engine
  (ace_core.py and ace-skill/scripts/curate.py).

  Python strings are modelled as lists of characters (`PStr`); playbook
  files are modelled as lists of lines, which is exact for every operation
  here except the whole-file regex in update_counters, whose `\s+` could in
  principle span a newline; that operation is modelled line by line, which
  agrees with the code on all line-structured content.

  Python whitespace (str.strip, regex \s) is modelled over its ASCII part;
  float similarity scores are modelled as exact rationals (every score the
  claims mention is exactly representable, and the arithmetic producing the
  scores is a single division of small integers).
-/

namespace Ace

/-- Characters of a Python string. -/
abbrev PStr := List Char

/-- Shorthand for writing concrete strings. -/
def pstr (s : String) : PStr := s.data

/-- Python whitespace (str.strip, regex \s), ASCII range. -/
def pyWS (c : Char) : Bool :=
  c = ' ' || c = '\t' || c = '\n' || c = '\r' || c = '\x0b' || c = '\x0c'

/-- str.lstrip(). -/
def lstrip (s : PStr) : PStr := s.dropWhile pyWS

/-- str.rstrip(). -/
def rstrip (s : PStr) : PStr := (s.reverse.dropWhile pyWS).reverse

/-- str.strip(). -/
def strip (s : PStr) : PStr := rstrip (lstrip s)

/-- Regex \d, ASCII. -/
def isDigitC (c : Char) : Bool := '0' ≤ c && c ≤ '9'

/-- Regex [a-z]. -/
def isLowerAZ (c : Char) : Bool := 'a' ≤ c && c ≤ 'z'

/-- Value of a decimal digit character. -/
def digitVal (c : Char) : Nat := c.toNat - '0'.toNat

/-- Python int() on a run of decimal digits. -/
def digitsToNat (s : PStr) : Nat := s.foldl (fun n c => 10 * n + digitVal c) 0

/-- Decimal digit character for a value below ten. -/
def digitChar (n : Nat) : Char := Char.ofNat ('0'.toNat + n)

/-- Decimal digits of a natural number, most significant first
(fuel-indexed so that it reduces in the kernel). -/
def natDigitsAux : Nat → Nat → PStr
  | 0, _ => []
  | fuel + 1, n =>
    if n < 10 then [digitChar n]
    else natDigitsAux fuel (n / 10) ++ [digitChar (n % 10)]

/-- Python str(n) / f-string rendering of a non-negative integer. -/
def natDigits (n : Nat) : PStr := natDigitsAux (n + 1) n

/-- Python f"{n:05d}" for a non-negative n. -/
def padTo5 (s : PStr) : PStr :=
  if s.length < 5 then List.replicate (5 - s.length) '0' ++ s else s

/-- needle in haystack (Python substring test). -/
def containsSub (haystack needle : PStr) : Bool :=
  (List.range (haystack.length + 1)).any (fun i => needle.isPrefixOf (haystack.drop i))

/-! ## Entry codec (ace_core._parse_entry / ace_core._format_entry) -/

/-- A parsed playbook entry, the dict produced by `_parse_entry`. -/
structure EntryA where
  id : PStr
  helpful : Nat
  harmful : Nat
  project_id : Option PStr
  content : PStr
deriving DecidableEq, Repr

/-- Consume an exact literal prefix. -/
def expectPrefix (lit s : PStr) : Option PStr :=
  if lit.isPrefixOf s then some (s.drop lit.length) else none

/-- Consume exactly n characters all satisfying p. -/
def takeExact (p : Char → Bool) (n : Nat) (s : PStr) : Option (PStr × PStr) :=
  let tok := s.take n
  if tok.length = n && tok.all p then some (tok, s.drop n) else none

/-- Consume a maximal nonempty run of characters satisfying p
(regex `p+` followed by a character outside p, which never backtracks). -/
def takeRun1 (p : Char → Bool) (s : PStr) : Option (PStr × PStr) :=
  let tok := s.takeWhile p
  if tok.isEmpty then none else some (tok, s.dropWhile p)

/-- The id sub-grammar `[a-z]{3}-\d{5}` followed by `]`.
Returns the id characters and the rest. -/
def parseIdBody (s : PStr) : Option (PStr × PStr) :=
  match takeExact isLowerAZ 3 s with
  | none => none
  | some (ls, s1) =>
    match expectPrefix (pstr "-") s1 with
    | none => none
    | some s2 =>
      match takeExact isDigitC 5 s2 with
      | none => none
      | some (ds, s3) =>
        match expectPrefix (pstr "]") s3 with
        | none => none
        | some s4 => some (ls ++ pstr "-" ++ ds, s4)

/-- Final `\s+(.+)` of the entry patterns.  The whitespace run is greedy;
when it swallows the whole remainder, Python backtracks to the largest split
leaving at least one `.`-matchable (non-newline) character. -/
def parseWsContent (s : PStr) : Option PStr :=
  let w := s.takeWhile pyWS
  let r := s.dropWhile pyWS
  if w.isEmpty then none
  else if !r.isEmpty then some (r.takeWhile (fun c => c ≠ '\n'))
  else
    match (List.range' 1 (w.length - 1)).reverse.find? (fun i => w.getD i ' ' ≠ '\n') with
    | some i => some ((w.drop i).takeWhile (fun c => c ≠ '\n'))
    | none => none

/-- The part after `harmful=<digits>`:
`(?:\s+\[([^\]]+)\])?\s+::\s+(.+)` with Python's greedy/backtracking
semantics, which on this pattern are deterministic: after the mandatory
whitespace run, a `[`-tag is read iff one is present and well bracketed;
otherwise `::` must follow the whitespace directly. -/
def parseTail (s : PStr) : Option (Option PStr × PStr) :=
  match takeRun1 pyWS s with
  | none => none
  | some (_, r) =>
    match expectPrefix (pstr "[") r with
    | some afterBracket =>
      -- optional project-tag group attempted first
      match takeRun1 (fun c => c ≠ ']') afterBracket with
      | none => none
      | some (tag, r1) =>
        match expectPrefix (pstr "]") r1 with
        | none => none
        | some r2 =>
          match takeRun1 pyWS r2 with
          | none => none
          | some (_, r3) =>
            match expectPrefix (pstr "::") r3 with
            | none => none
            | some r4 =>
              match parseWsContent r4 with
              | none => none
              | some content => some (some tag, content)
    | none =>
      match expectPrefix (pstr "::") r with
      | none => none
      | some r1 =>
        match parseWsContent r1 with
        | none => none
        | some content => some (none, content)

/-- ace_core._parse_entry: strip the line, then match
`\[([a-z]{3}-\d{5})\]\s+helpful=(\d+)\s+harmful=(\d+)(?:\s+\[([^\]]+)\])?\s+::\s+(.+)`
(the second, tag-free pattern in the source matches only lines the first one
already matches, so it never fires). -/
def parseEntry (line : PStr) : Option EntryA :=
  let s := strip line
  match expectPrefix (pstr "[") s with
  | none => none
  | some s1 =>
    match parseIdBody s1 with
    | none => none
    | some (eid, s2) =>
      match takeRun1 pyWS s2 with
      | none => none
      | some (_, s3) =>
        match expectPrefix (pstr "helpful=") s3 with
        | none => none
        | some s4 =>
          match takeRun1 isDigitC s4 with
          | none => none
          | some (hds, s5) =>
            match takeRun1 pyWS s5 with
            | none => none
            | some (_, s6) =>
              match expectPrefix (pstr "harmful=") s6 with
              | none => none
              | some s7 =>
                match takeRun1 isDigitC s7 with
                | none => none
                | some (mds, s8) =>
                  match parseTail s8 with
                  | none => none
                  | some (tag, content) =>
                    some ⟨eid, digitsToNat hds, digitsToNat mds, tag, content⟩

/-- ace_core._format_entry. A falsy project_marker (absent or empty)
omits the bracket. -/
def formatEntry (entry_id : PStr) (helpful harmful : Nat) (content : PStr)
    (project_marker : Option PStr := none) : PStr :=
  match project_marker with
  | some m =>
    if m.isEmpty then
      pstr "[" ++ entry_id ++ pstr "] helpful=" ++ natDigits helpful ++
        pstr " harmful=" ++ natDigits harmful ++ pstr " :: " ++ content
    else
      pstr "[" ++ entry_id ++ pstr "] helpful=" ++ natDigits helpful ++
        pstr " harmful=" ++ natDigits harmful ++ pstr " [" ++ m ++ pstr "] :: " ++ content
  | none =>
    pstr "[" ++ entry_id ++ pstr "] helpful=" ++ natDigits helpful ++
      pstr " harmful=" ++ natDigits harmful ++ pstr " :: " ++ content

/-! ## difflib.SequenceMatcher(None, a, b).ratio()

The matcher used by `_similarity` (ace_core) and `similarity` (curate.py).
With isjunk=None the junk set is empty, so the two junk-extension loops of
find_longest_match never fire and the two non-junk extension loops extend
over every equal pair of characters.  autojunk drops popular characters
(count > len(b)/100 + 1 when len(b) >= 200) from the b-index, so they can
seed no j2len chain, but extension still crosses them.  The j2len dictionary
of row i memoises, for each usable j, the length of the match run ending at
(i, j); `chain` computes that quantity directly. -/

/-- Indices of occurrences of c in b, ascending (the raw b2j table). -/
def occurrences (b : PStr) (c : Char) : List Nat :=
  (List.range b.length).filter (fun j => b.get? j = some c)

/-- autojunk: for len(b) >= 200, characters occurring more than
len(b)/100 + 1 times are purged from the b-index. -/
def isPopular (b : PStr) (c : Char) : Bool :=
  decide (200 ≤ b.length) && decide (b.length / 100 + 1 < b.count c)

/-- The b2j index after the autojunk purge. -/
def b2j (b : PStr) (c : Char) : List Nat :=
  if isPopular b c then [] else occurrences b c

/-- a[i] equals b[j] and b[j] survived the autojunk purge: the j2len chain
through (i, j) may extend. -/
def hit (a b : PStr) (i j : Nat) : Bool :=
  match a.get? i, b.get? j with
  | some x, some y => x = y && !(isPopular b y)
  | _, _ => false

/-- a[i] equals b[j] (extension loops ignore the purge). -/
def matchAt (a b : PStr) (i j : Nat) : Bool :=
  match a.get? i, b.get? j with
  | some x, some y => x = y
  | _, _ => false

/-- Value the j2len dictionary assigns to column j in row i:
`newj2len[j] = j2len.get(j-1, 0) + 1`, where the previous row's entry exists
only for a usable hit inside the window. -/
def chain (a b : PStr) (alo blo : Nat) : Nat → Nat → Nat
  | 0, _ => 1
  | _ + 1, 0 => 1
  | i + 1, j + 1 =>
    if i + 1 ≤ alo || j + 1 ≤ blo then 1
    else if hit a b i j then chain a b alo blo i j + 1 else 1

/-- Columns scanned in row i: `b2j.get(a[i], [])` restricted to
blo <= j < bhi (the `continue`/`break` filters; the list is ascending). -/
def jsOf (a b : PStr) (blo bhi i : Nat) : List Nat :=
  match a.get? i with
  | none => []
  | some c => (b2j b c).filter (fun j => decide (blo ≤ j) && decide (j < bhi))

/-- All (row, column) pairs of the find_longest_match inner loop,
in scan order: rows ascending, columns ascending within a row. -/
def flmPairs (a b : PStr) (alo ahi blo bhi : Nat) : List (Nat × Nat) :=
  ((List.range' alo (ahi - alo)).map
    (fun i => (jsOf a b blo bhi i).map (fun j => (i, j)))).flatten

/-- State (besti, bestj, bestsize) of find_longest_match. -/
structure Best where
  besti : Nat
  bestj : Nat
  bestsize : Nat
deriving DecidableEq, Repr

/-- One inner-loop update: `if k > bestsize: besti, bestj, bestsize =
i-k+1, j-k+1, k` (strict improvement only). -/
def innerStep (a b : PStr) (alo blo : Nat) (st : Best) (p : Nat × Nat) : Best :=
  let k := chain a b alo blo p.1 p.2
  if st.bestsize < k then ⟨p.1 + 1 - k, p.2 + 1 - k, k⟩ else st

/-- The inner double loop of find_longest_match. -/
def innerBest (a b : PStr) (alo ahi blo bhi : Nat) : Best :=
  (flmPairs a b alo ahi blo bhi).foldl (innerStep a b alo blo) ⟨alo, blo, 0⟩

/-- Backward extension: while besti > alo and bestj > blo and
a[besti-1] == b[bestj-1], grow the block leftwards. -/
def extendBack (a b : PStr) (alo blo : Nat) : Nat → Nat → Nat → Best
  | 0, j, k => ⟨0, j, k⟩
  | i + 1, 0, k => ⟨i + 1, 0, k⟩
  | i + 1, j + 1, k =>
    if alo ≤ i && blo ≤ j && matchAt a b i j then extendBack a b alo blo i j (k + 1)
    else ⟨i + 1, j + 1, k⟩

/-- Forward extension: while besti+bestsize < ahi and bestj+bestsize < bhi
and a[besti+bestsize] == b[bestj+bestsize], grow the block rightwards.
`rem` carries ahi - (besti + bestsize). -/
def extendFwd (a b : PStr) (bhi i j : Nat) : Nat → Nat → Nat
  | 0, k => k
  | rem + 1, k =>
    if j + k < bhi && matchAt a b (i + k) (j + k) then extendFwd a b bhi i j rem (k + 1)
    else k

/-- find_longest_match(alo, ahi, blo, bhi). -/
def flm (a b : PStr) (alo ahi blo bhi : Nat) : Best :=
  let st := innerBest a b alo ahi blo bhi
  let st2 := extendBack a b alo blo st.besti st.bestj st.bestsize
  ⟨st2.besti, st2.bestj,
    extendFwd a b bhi st2.besti st2.bestj (ahi - (st2.besti + st2.bestsize)) st2.bestsize⟩

/-- Total size of the matching blocks found inside a window, the quantity
ratio() sums (the recursion of get_matching_blocks; fuel-indexed, each
recursive window is strictly smaller). -/
def mtAux (a b : PStr) : Nat → Nat → Nat → Nat → Nat → Nat
  | 0, _, _, _, _ => 0
  | fuel + 1, alo, ahi, blo, bhi =>
    let m := flm a b alo ahi blo bhi
    if m.bestsize = 0 then 0
    else
      (if alo < m.besti && blo < m.bestj then mtAux a b fuel alo m.besti blo m.bestj else 0)
      + m.bestsize
      + (if m.besti + m.bestsize < ahi && m.bestj + m.bestsize < bhi then
          mtAux a b fuel (m.besti + m.bestsize) ahi (m.bestj + m.bestsize) bhi
        else 0)

/-- Sum of the sizes of all matching blocks of the two sequences. -/
def matchTotal (a b : PStr) : Nat :=
  mtAux a b (a.length + b.length + 1) 0 a.length 0 b.length

/-- SequenceMatcher(None, a, b).ratio() = 2*M / (len(a)+len(b)),
and 1.0 for two empty sequences. -/
def ratio (a b : PStr) : ℚ :=
  if a.length + b.length = 0 then 1
  else 2 * (matchTotal a b : ℚ) / ((a.length : ℚ) + (b.length : ℚ))

/-- Python str.lower(), ASCII range. -/
def lowerStr (s : PStr) : PStr := s.map Char.toLower

/-- Python str.upper(), ASCII range. -/
def upperStr (s : PStr) : PStr := s.map Char.toUpper

/-- ace_core._similarity and curate.py similarity:
SequenceMatcher(None, a.lower(), b.lower()).ratio(). -/
def similarity (a b : PStr) : ℚ := ratio (lowerStr a) (lowerStr b)

/-! ## curate.py — the destructive prune-merge-rebuild pass (Policy B) -/

/-- An entry as parsed by curate.py, keeping the raw (stripped) line. -/
structure EntryB where
  id : PStr
  helpful : Nat
  harmful : Nat
  content : PStr
  raw : PStr
deriving DecidableEq, Repr

/-- Trailing `(.+)$` of the curate.py patterns: the rest of the string,
nonempty, with `$` admitting one final newline. -/
def parseToEnd (r : PStr) : Option PStr :=
  let c := r.takeWhile (fun ch => ch ≠ '\n')
  let rest := r.dropWhile (fun ch => ch ≠ '\n')
  if c.isEmpty then none
  else if rest.isEmpty || rest = ['\n'] then some c else none

/-- curate.py ENTRY_PATTERN:
`^\[([a-z]{3}-\d{5})\]\s+helpful=(\d+)\s+harmful=(\d+)\s+::\s+(.+)$`
— note: no optional project-tag group. -/
def entryPatternB (line : PStr) : Option EntryB :=
  match expectPrefix (pstr "[") line with
  | none => none
  | some s1 =>
    match parseIdBody s1 with
    | none => none
    | some (eid, s2) =>
      match takeRun1 pyWS s2 with
      | none => none
      | some (_, s3) =>
        match expectPrefix (pstr "helpful=") s3 with
        | none => none
        | some s4 =>
          match takeRun1 isDigitC s4 with
          | none => none
          | some (hds, s5) =>
            match takeRun1 pyWS s5 with
            | none => none
            | some (_, s6) =>
              match expectPrefix (pstr "harmful=") s6 with
              | none => none
              | some s7 =>
                match takeRun1 isDigitC s7 with
                | none => none
                | some (mds, s8) =>
                  match takeRun1 pyWS s8 with
                  | none => none
                  | some (_, s9) =>
                    match expectPrefix (pstr "::") s9 with
                    | none => none
                    | some s10 =>
                      match takeRun1 pyWS s10 with
                      | none => none
                      | some (_, s11) =>
                        match parseToEnd s11 with
                        | none => none
                        | some content =>
                          some ⟨eid, digitsToNat hds, digitsToNat mds, content, line⟩

/-- curate.py SECTION_PATTERN: `^##\s+(.+)$`. -/
def sectionPatternB (line : PStr) : Option PStr :=
  match expectPrefix (pstr "##") line with
  | none => none
  | some s1 =>
    match takeRun1 pyWS s1 with
    | none => none
    | some (_, s2) => parseToEnd s2

/-- defaultdict(list) append: extend the bucket of an existing key,
or create the key at the end. -/
def addToSection (secs : List (PStr × List EntryB)) (name : PStr) (e : EntryB) :
    List (PStr × List EntryB) :=
  match secs with
  | [] => [(name, [e])]
  | (n, es) :: rest =>
    if n = name then (n, es ++ [e]) :: rest else (n, es) :: addToSection rest name e

/-- curate.py parse_playbook: walk the lines, tracking the current section;
entry lines inside a section are collected, everything else is dropped. -/
def parsePlaybookGo : List PStr → Option PStr → List (PStr × List EntryB) →
    List (PStr × List EntryB)
  | [], _, secs => secs
  | l :: ls, cur, secs =>
    let line := strip l
    match sectionPatternB line with
    | some name => parsePlaybookGo ls (some name) secs
    | none =>
      match entryPatternB line, cur with
      | some e, some sec => parsePlaybookGo ls cur (addToSection secs sec e)
      | _, _ => parsePlaybookGo ls cur secs

/-- curate.py parse_playbook(content). -/
def parsePlaybookB (lines : List PStr) : List (PStr × List EntryB) :=
  parsePlaybookGo lines none []

/-- curate.py SIMILARITY_THRESHOLD = 0.85. -/
def simThreshold : ℚ := 17 / 20

/-- Set insertion (Python set.add on a set modelled as a dedup-ordered list). -/
def pInsert (s : List PStr) (x : PStr) : List PStr := if x ∈ s then s else s ++ [x]

/-- Inner loop of find_duplicates: absorb every later, not-yet-processed
entry whose similarity to the seed reaches the threshold. -/
def fdScan (seed : EntryB) : List EntryB → List PStr → List PStr →
    (List PStr × List PStr)
  | [], group, processed => (group, processed)
  | b :: bs, group, processed =>
    if b.id ∈ processed then fdScan seed bs group processed
    else if simThreshold ≤ similarity seed.content b.content then
      fdScan seed bs (pInsert group b.id) (pInsert processed b.id)
    else fdScan seed bs group processed

/-- Outer loop of find_duplicates. -/
def findDupGo : List EntryB → List PStr → List (List PStr) → List (List PStr)
  | [], _, acc => acc
  | a :: rest, processed, acc =>
    if a.id ∈ processed then findDupGo rest processed acc
    else
      let gp := fdScan a rest [a.id] processed
      if 1 < gp.1.length then findDupGo rest (pInsert gp.2 a.id) (acc ++ [gp.1])
      else findDupGo rest gp.2 acc

/-- curate.py find_duplicates(entries): greedy single-link duplicate groups
(each group a set of entry ids). -/
def findDuplicates (entries : List EntryB) : List (List PStr) :=
  findDupGo entries [] []

/-- curate.py merge_duplicates: members of the group in section order;
keep id and content of the first member with maximal helpful, sum both
counters.  None on an empty member list (unreachable from curate_section,
where Python's max would raise). -/
def mergeDuplicates (entries : List EntryB) (group : List PStr) : Option EntryB :=
  let dups := entries.filter (fun e => e.id ∈ group)
  match dups with
  | [] => none
  | d :: ds =>
    let best := ds.foldl (fun b e => if b.helpful < e.helpful then e else b) d
    let th := (dups.map (·.helpful)).sum
    let tm := (dups.map (·.harmful)).sum
    some ⟨best.id, th, tm, best.content, formatEntry best.id th tm best.content⟩

/-- The harmful-pruning test shared by both curation policies:
`entry['harmful'] > entry['helpful'] + harmful_threshold`. -/
def harmfulPrunes (helpful harmful : Nat) (t : ℤ) : Bool :=
  decide ((helpful : ℤ) + t < (harmful : ℤ))

/-- Stable insertion into a helpful-descending list (after existing
elements with greater-or-equal helpful). -/
def insDesc (e : EntryB) : List EntryB → List EntryB
  | [] => [e]
  | x :: xs => if x.helpful < e.helpful then e :: x :: xs else x :: insDesc e xs

/-- Python list.sort(key=helpful, reverse=True): stable descending sort. -/
def sortByHelpfulDesc (l : List EntryB) : List EntryB :=
  l.foldl (fun acc e => insDesc e acc) []

/-- curate.py curate_section: prune, merge duplicate groups, keep the rest,
sort by helpful descending. -/
def curateSection (entries : List EntryB) (t : ℤ) : List EntryB :=
  let filtered := entries.filter (fun e => !harmfulPrunes e.helpful e.harmful t)
  let groups := findDuplicates filtered
  let merged := groups.filterMap (mergeDuplicates filtered)
  let mergedIds := groups.flatten
  let curated := merged ++ filtered.filter (fun e => !(decide (e.id ∈ mergedIds)))
  sortByHelpfulDesc curated

/-- The canonical section order of rebuild_playbook. -/
def sectionOrderB : List PStr :=
  [pstr "STRATEGIES & INSIGHTS", pstr "FORMULAS & CALCULATIONS",
   pstr "COMMON MISTAKES TO AVOID", pstr "DOMAIN KNOWLEDGE"]

/-- curate.py rebuild_playbook: canonical sections first, then extras,
each nonempty section emitted as header, raw entry lines, blank line. -/
def rebuildPlaybook (curatedSections : List (PStr × List EntryB)) : List PStr :=
  let allSections :=
    sectionOrderB ++ (curatedSections.map (·.1)).filter (fun s => !(decide (s ∈ sectionOrderB)))
  (allSections.map (fun sec =>
    match curatedSections.find? (fun p => p.1 == sec) with
    | none => []
    | some (_, entries) =>
      if entries.isEmpty then []
      else (pstr "## " ++ sec) :: entries.map (·.raw) ++ [[]])).flatten

/-- curate.py curate_playbook(content, threshold): parse, curate each
section, rebuild (the stats dict is not modelled; no claim concerns it). -/
def curatePlaybookB (lines : List PStr) (t : ℤ) : List PStr :=
  rebuildPlaybook ((parsePlaybookB lines).map (fun p => (p.1, curateSection p.2 t)))

/-! ## ace_core — store model and operations

The store models the playbooks directory (project id to file lines, in
filesystem iteration order) and projects.json (key list when the file
exists). -/

structure Store where
  files : List (PStr × List PStr)
  registry : Option (List PStr)
deriving DecidableEq

/-- File lookup (path exists / read_text). -/
def lookupFile (st : Store) (pid : PStr) : Option (List PStr) :=
  (st.files.find? (fun f => f.1 == pid)).map (·.2)

/-- File write: replace in place, or create at the end of the directory. -/
def setFile (st : Store) (pid : PStr) (lines : List PStr) : Store :=
  if st.files.any (fun f => f.1 == pid) then
    ⟨st.files.map (fun f => if f.1 == pid then (f.1, lines) else f), st.registry⟩
  else ⟨st.files ++ [(pid, lines)], st.registry⟩

/-- ace_core.SECTION_PREFIXES (insertion order preserved). -/
def sectionPrefixes : List (PStr × PStr) :=
  [(pstr "STRATEGIES & INSIGHTS", pstr "str"),
   (pstr "FORMULAS & CALCULATIONS", pstr "cal"),
   (pstr "COMMON MISTAKES TO AVOID", pstr "mis"),
   (pstr "DOMAIN KNOWLEDGE", pstr "dom")]

/-- ASCII apostrophe (kept out of string literals). -/
def apos : Char := Char.ofNat 39

/-- ace_core.DEFAULT_PLAYBOOK, as lines. -/
def defaultPlaybook : List PStr :=
  [pstr "## STRATEGIES & INSIGHTS",
   pstr "[str-00001] helpful=0 harmful=0 :: Break complex problems into smaller, manageable steps.",
   pstr "[str-00002] helpful=0 harmful=0 :: Validate assumptions before proceeding with solutions.",
   [],
   pstr "## FORMULAS & CALCULATIONS",
   pstr "[cal-00001] helpful=0 harmful=0 :: ROI = (Gain - Cost) / Cost * 100",
   [],
   pstr "## COMMON MISTAKES TO AVOID",
   pstr "[mis-00001] helpful=0 harmful=0 :: Don" ++ [apos] ++
     pstr "t assume input data is clean - always validate.",
   [],
   pstr "## DOMAIN KNOWLEDGE",
   pstr "[dom-00001] helpful=0 harmful=0 :: Context window limits require prioritizing relevant information.",
   []]

/-- ace_core._load_projects: registry keys, or the implicit global default
when projects.json does not exist. -/
def loadProjects (st : Store) : List PStr :=
  match st.registry with
  | some ks => ks
  | none => [pstr "global"]

/-- ace_core._ensure_playbook. -/
def ensurePlaybook (st : Store) (pid : PStr) : Store :=
  match lookupFile st pid with
  | some _ => st
  | none =>
    if pid = pstr "global" then setFile st pid defaultPlaybook
    else setFile st pid [pstr "# Project: " ++ pid, [], []]

/-- ace_core._read_playbook_content. -/
def readPlaybookContent (st : Store) (pid : PStr) : List PStr × Store :=
  let st1 := ensurePlaybook st pid
  ((lookupFile st1 pid).getD [], st1)

/-- One match of the allocator pattern `\[<prefix>-(\d{5})\]` at position i
of a line. -/
def idNumAt (pfx line : PStr) (i : Nat) : Option Nat :=
  match expectPrefix (pstr "[" ++ pfx ++ pstr "-") (line.drop i) with
  | none => none
  | some s1 =>
    match takeExact isDigitC 5 s1 with
    | none => none
    | some (ds, s2) =>
      if (pstr "]").isPrefixOf s2 then some (digitsToNat ds) else none

/-- re.findall of the allocator pattern over one line (matches cannot
overlap or span lines). -/
def scanIdNums (pfx line : PStr) : List Nat :=
  (List.range line.length).filterMap (idNumAt pfx line)

/-- The max-suffix fold of ace_core._get_next_id over the named projects'
existing files. -/
def idFold (st : Store) (pfx : PStr) (pids : List PStr) (init : Nat) : Nat :=
  pids.foldl (fun mx pid =>
    match lookupFile st pid with
    | none => mx
    | some lines => ((lines.map (scanIdNums pfx)).flatten).foldl max mx) init

/-- The numeric suffix _get_next_id allocates: max over the named projects
plus one. -/
def nextIdNum (st : Store) (pfx : PStr) (pids : List PStr) : Nat :=
  idFold st pfx pids 0 + 1

/-- ace_core._get_next_id: maximum suffix over the named projects' existing
files, plus one, zero-padded to five digits. -/
def getNextId (st : Store) (pfx : PStr) (project_ids : List PStr) : PStr :=
  pfx ++ pstr "-" ++ padTo5 (natDigits (nextIdNum st pfx project_ids))

/-- Scanning loop of ace_core._get_section_content: the last
`## <section>` line before the first subsequent `## `-line sets the start;
that `## `-line (exclusive) or end of file sets the end. -/
def gscGo (header : PStr) : List PStr → Nat → Option Nat → Option (Nat × Nat)
  | [], _, none => none
  | [], n, some s => some (s, n)
  | l :: ls, i, acc =>
    if strip l = header then gscGo header ls (i + 1) (some i)
    else
      match acc with
      | some s =>
        if (pstr "## ").isPrefixOf (strip l) then some (s, i)
        else gscGo header ls (i + 1) (some s)
      | none => gscGo header ls (i + 1) none

/-- ace_core._get_section_content (None stands for the (-1, -1, []) miss). -/
def getSectionContent (lines : List PStr) (sec : PStr) :
    Option (Nat × Nat × List PStr) :=
  match gscGo (pstr "## " ++ sec) lines 0 none with
  | none => none
  | some (s, e) => some (s, e, (lines.drop s).take (e - s))

/-- Section attribution in read_playbook: the first canonical section whose
line range contains a line with the same stripped text. -/
def attributeSection (content : List PStr) (line : PStr) : Option PStr :=
  (sectionPrefixes.find? (fun sp =>
    match getSectionContent content sp.1 with
    | none => false
    | some (_, _, secLines) => (secLines.map strip).contains (strip line))).map (·.1)

/-- read_playbook marker step for a project-file line: re-format with the
[project_id] marker unless that substring already occurs anywhere in the
line. -/
def tagProjectLine (pid line : PStr) : PStr :=
  match parseEntry line with
  | none => strip line
  | some e =>
    if containsSub line (pstr "[" ++ pid ++ pstr "]") then strip line
    else formatEntry e.id e.helpful e.harmful e.content (some pid)

/-- Global-file bucket of one section: entry lines attributed to it, in
file order, stripped. -/
def bucketGlobal (g : List PStr) (sec : PStr) : List PStr :=
  g.filterMap (fun line =>
    match parseEntry line with
    | none => none
    | some _ =>
      if attributeSection g line = some sec then some (strip line) else none)

/-- Project-file bucket of one section: entry lines attributed to it, in
file order, marker-tagged. -/
def bucketProject (p : List PStr) (pid sec : PStr) : List PStr :=
  p.filterMap (fun line =>
    match parseEntry line with
    | none => none
    | some _ =>
      if attributeSection p line = some sec then some (tagProjectLine pid line) else none)

/-- ace_core.read_playbook body (the overlay): global as-is, otherwise the
four canonical sections, each nonempty bucket rendered as header, global
entries, project entries, blank line. -/
def readPlaybookLines (st : Store) (pid : PStr) : List PStr × Store :=
  let gst := readPlaybookContent st (pstr "global")
  if pid = pstr "global" then gst
  else
    let pst := readPlaybookContent gst.2 pid
    (((sectionPrefixes.map (fun sp =>
        let bucket := bucketGlobal gst.1 sp.1 ++ bucketProject pst.1 pid sp.1
        if bucket.isEmpty then []
        else (pstr "## " ++ sp.1) :: bucket ++ [[]])).flatten),
      pst.2)

/-- Text-level rstrip on a joined line list: drop trailing all-whitespace
lines, then rstrip the last survivor (an all-whitespace text leaves one
empty line). -/
def rstripLines (lines : List PStr) : List PStr :=
  match lines.reverse.dropWhile (fun l => l.all pyWS) with
  | [] => [[]]
  | l :: rest => ((rstrip l) :: rest).reverse

/-- Insertion index of add_entry: after the last non-blank line of the
section range, or at the range end. -/
def insertIndexAt (lines : List PStr) (startIdx endIdx : Nat) : Nat :=
  match (List.range' (startIdx + 1) (endIdx - 1 - startIdx)).reverse.find?
      (fun i => !(strip (lines.getD i [])).isEmpty) with
  | some i => i + 1
  | none => endIdx

/-- ace_core.add_entry body.  Returns the new id (None for an invalid
section) and the updated store. -/
def addEntry (st : Store) (sec content pid : PStr) : Option PStr × Store :=
  match sectionPrefixes.find? (fun sp => sp.1 == sec) with
  | none => (none, st)
  | some sp =>
    let allProjects := loadProjects st
    let newId := getNextId st sp.2 allProjects
    let newEntry := formatEntry newId 0 0 (strip content)
    let cst := readPlaybookContent st pid
    match getSectionContent cst.1 sec with
    | none =>
      (some newId, setFile cst.2 pid (rstripLines cst.1 ++ [[], pstr "## " ++ sec, newEntry, []]))
    | some (startIdx, endIdx, _) =>
      let idx := insertIndexAt cst.1 startIdx endIdx
      (some newId, setFile cst.2 pid (cst.1.take idx ++ [newEntry] ++ cst.1.drop idx))

/-- One attempted match, at position i of a line, of the update_counters
pattern `\[<id>\]\s+helpful=(\d+)\s+harmful=(\d+)(?:\s+\[[^\]]+\])?\s+::\s+(.+)`.
Returns the counters and content groups. -/
def updMatchAt (entry_id line : PStr) (i : Nat) : Option (Nat × Nat × PStr) :=
  match expectPrefix (pstr "[" ++ entry_id ++ pstr "]") (line.drop i) with
  | none => none
  | some s1 =>
    match takeRun1 pyWS s1 with
    | none => none
    | some (_, s2) =>
      match expectPrefix (pstr "helpful=") s2 with
      | none => none
      | some s3 =>
        match takeRun1 isDigitC s3 with
        | none => none
        | some (hds, s4) =>
          match takeRun1 pyWS s4 with
          | none => none
          | some (_, s5) =>
            match expectPrefix (pstr "harmful=") s5 with
            | none => none
            | some s6 =>
              match takeRun1 isDigitC s6 with
              | none => none
              | some (mds, s7) =>
                match parseTail s7 with
                | none => none
                | some (_, content) => some (digitsToNat hds, digitsToNat mds, content)

/-- Leftmost match of the update_counters pattern in one line, with its
start position (at most one match per line: the content group runs to the
end of the line). -/
def updMatchLine (entry_id line : PStr) : Option (Nat × Nat × Nat × PStr) :=
  (List.range line.length).findSome? (fun i =>
    (updMatchAt entry_id line i).map (fun r => (i, r)))

/-- re.search over a file: groups of the first match in line order. -/
def updSearch (entry_id : PStr) (lines : List PStr) : Option (Nat × Nat × PStr) :=
  lines.findSome? (fun l => (updMatchLine entry_id l).map (·.2))

/-- re.sub on one line: replace the matched span (which runs to the end of
the line) with the replacement, taken literally. -/
def updSubLine (entry_id newEntry line : PStr) : PStr :=
  match updMatchLine entry_id line with
  | none => line
  | some (i, _) => line.take i ++ newEntry

/-- ace_core.update_counters body over the files in directory order.
Returns (old helpful, old harmful, new helpful, new harmful) on success.
The replacement entry is formatted without a project marker. -/
def updGo (entry_id : PStr) (hd md : ℤ) (st : Store) :
    List (PStr × List PStr) → Option (Nat × Nat × Nat × Nat) × Store
  | [] => (none, st)
  | (pid, lines) :: rest =>
    match updSearch entry_id lines with
    | none => updGo entry_id hd md st rest
    | some (oh, om, content) =>
      let nh := ((oh : ℤ) + hd).toNat
      let nm := ((om : ℤ) + md).toNat
      let newEntry := formatEntry entry_id nh nm content
      (some (oh, om, nh, nm), setFile st pid (lines.map (updSubLine entry_id newEntry)))

/-- ace_core.update_counters (new value = max(0, old + delta)). -/
def updateCounters (st : Store) (entry_id : PStr) (hd md : ℤ) :
    Option (Nat × Nat × Nat × Nat) × Store :=
  updGo entry_id hd md st st.files

/-- Policy A prune pass over one file: drop entry lines failing the
harmful test, keep everything else, collect removed ids and survivors. -/
def pruneFileA (t : ℤ) : List PStr → List PStr × List PStr × List EntryA
  | [] => ([], [], [])
  | l :: ls =>
    let r := pruneFileA t ls
    match parseEntry l with
    | some e =>
      if harmfulPrunes e.helpful e.harmful t then (r.1, e.id :: r.2.1, r.2.2)
      else (l :: r.1, r.2.1, e :: r.2.2)
    | none => (l :: r.1, r.2.1, r.2.2)

/-- All ordered pairs of surviving entries with similarity above 0.8,
in scan order (the nested loop of curate_playbook). -/
def dupPairs : List EntryA → List (PStr × PStr × ℚ)
  | [] => []
  | e :: rest =>
    rest.filterMap (fun e2 =>
      let s := similarity e.content e2.content
      if (4 / 5 : ℚ) < s then some (e.id, e2.id, s) else none) ++ dupPairs rest

/-- Result data of ace_core.curate_playbook (Policy A). -/
structure ReportA where
  removed : List PStr
  dups : List (PStr × PStr × ℚ)
deriving DecidableEq

/-- The duplicate pairs actually shown in the message: duplicates[:5]. -/
def reportShown (r : ReportA) : List (PStr × PStr × ℚ) := r.dups.take 5

/-- The "...and N more" count: len(duplicates) - 5 when more than 5. -/
def reportOverflow (r : ReportA) : Nat :=
  if 5 < r.dups.length then r.dups.length - 5 else 0

/-- The prune loop of ace_core.curate_playbook: prune each selected project
in place, accumulating removed ids and surviving entries in scan order. -/
def curateScan (st : Store) (pidOpt : Option PStr) (t : ℤ) :
    Store × List PStr × List EntryA :=
  let projects : List PStr :=
    match pidOpt with
    | some p => if p.isEmpty then st.files.map (fun f => f.1) else [p]
    | none => st.files.map (fun f => f.1)
  projects.foldl (fun (acc : Store × List PStr × List EntryA) proj =>
    match lookupFile acc.1 proj with
    | none => acc
    | some lines =>
      let r := pruneFileA t lines
      (setFile acc.1 proj r.1, acc.2.1 ++ r.2.1, acc.2.2 ++ r.2.2)) (st, [], [])

/-- ace_core.curate_playbook body (Policy A): prune each selected project
in place, then report (not modify) duplicate pairs among all survivors. -/
def curateA (st : Store) (pidOpt : Option PStr) (t : ℤ) : ReportA × Store :=
  let acc := curateScan st pidOpt t
  (⟨acc.2.1, dupPairs acc.2.2⟩, acc.1)

/-- Python str.split() (with no argument): maximal nonempty runs of
non-whitespace. -/
def splitWS (s : PStr) : List PStr :=
  (s.splitOnP pyWS).filter (fun t => !t.isEmpty)

/-- ace_core.search_playbook: case-insensitive OR over the keywords against
the content of each merged entry line. -/
def searchMatches (merged : List PStr) (query : PStr) : List PStr :=
  let keywords := splitWS (lowerStr query)
  merged.filterMap (fun line =>
    match parseEntry line with
    | none => none
    | some e =>
      if keywords.any (fun kw => containsSub (lowerStr e.content) kw) then some (strip line)
      else none)

/-! ## The store-access guard

ace_core._file_lock is a non-reentrant threading.Lock; an operation that
acquires it while holding it blocks forever.  Operations are modelled as
lock-level programs over an explicit held flag: acquiring with the flag set
is a deadlock, and a deadlock in a callee propagates. -/

inductive LockResult (α : Type) where
  | ok : α → LockResult α
  | deadlock : LockResult α
deriving DecidableEq

/-- `with _file_lock:` — acquire (deadlock if already held), run the body,
release on return. -/
def withLock {α : Type} (held : Bool) (body : Bool → LockResult α) : LockResult α :=
  if held then .deadlock else body true

/-- ace_core.read_playbook: one guarded read-and-merge. -/
def readPlaybookOp (held : Bool) (st : Store) (pid : PStr) :
    LockResult (List PStr × Store) :=
  withLock held (fun _ => .ok (readPlaybookLines st pid))

/-- ace_core.get_section: validity check outside the guard, then a guarded
body that itself calls the guard-acquiring read_playbook. -/
def getSectionOp (held : Bool) (st : Store) (sec pid : PStr) :
    LockResult (Option (List PStr) × Store) :=
  if !(sectionPrefixes.any (fun sp => sp.1 == sec)) then .ok (none, st)
  else
    withLock held (fun h =>
      match readPlaybookOp h st pid with
      | .deadlock => .deadlock
      | .ok (merged, st1) =>
        match getSectionContent merged sec with
        | none => .ok (none, st1)
        | some (_, _, secLines) => .ok (some secLines, st1))

/-- ace_core.search_playbook: a guarded call to the guard-acquiring
read_playbook, then unguarded post-processing. -/
def searchPlaybookOp (held : Bool) (st : Store) (query pid : PStr) :
    LockResult (List PStr × Store) :=
  match withLock held (fun h => readPlaybookOp h st pid) with
  | .deadlock => .deadlock
  | .ok (merged, st1) => .ok (searchMatches merged query, st1)

/-- ace_core.add_entry as a lock-level program: one guarded body with no
nested acquisition. -/
def addEntryOp (held : Bool) (st : Store) (sec content pid : PStr) :
    LockResult (Option PStr × Store) :=
  if !(sectionPrefixes.any (fun sp => sp.1 == sec)) then .ok (none, st)
  else withLock held (fun _ => .ok (addEntry st sec content pid))

/-- Scan order of the find_longest_match inner loop: rows ascending,
columns ascending within a row. -/
def lexLt (q p : Nat × Nat) : Prop :=
  q.1 < p.1 ∨ (q.1 = p.1 ∧ q.2 < p.2)

/-- The four-entry store of the C2 counterexample: one global playbook whose
last two entries have identical content (similarity 1) while every other
pair has similarity 9/10. -/
def c2store : Store :=
  ⟨[(pstr "global",
     [pstr "[str-00001] helpful=1 harmful=0 :: aaaaaaaaab",
      pstr "[str-00002] helpful=1 harmful=0 :: aaaaaaaaac",
      pstr "[str-00003] helpful=1 harmful=0 :: aaaaaaaaaa",
      pstr "[str-00004] helpful=1 harmful=0 :: aaaaaaaaaa"])], none⟩

/-- The report curate_playbook produces on that store. -/
def c2report : ReportA := (curateA c2store none 3).1

/-- A report with six duplicate pairs, exercising the overflow path. -/
def c2wreport : ReportA := ⟨[], List.replicate 6 (pstr "a", pstr "b", (1 : ℚ))⟩

/-- The C3 counterexample store: no registry (so _load_projects defaults to
global only) and an unregistered project file "p" that already holds
str-00002. -/
def c3store : Store :=
  ⟨[(pstr "global",
     [pstr "## STRATEGIES & INSIGHTS",
      pstr "[str-00001] helpful=0 harmful=0 :: Global strategy",
      []]),
    (pstr "p",
     [pstr "[str-00002] helpful=0 harmful=0 :: Project strategy"])], none⟩

/-- The C4 counterexample store: a single playbook whose one entry carries a
[finance] project tag. -/
def c4store : Store :=
  ⟨[(pstr "global",
     [pstr "[str-00001] helpful=5 harmful=1 [finance] :: Tagged strategy"])], none⟩

/-- Two section entries with identical content, exercising one duplicate
group under Policy B. -/
def c8w1 : EntryB :=
  ⟨pstr "str-00001", 3, 0, pstr "alpha", pstr "[str-00001] helpful=3 harmful=0 :: alpha"⟩

def c8w2 : EntryB :=
  ⟨pstr "str-00002", 5, 0, pstr "alpha", pstr "[str-00002] helpful=5 harmful=0 :: alpha"⟩

/-- Spec-side marker step (following the spec wording, for comparison with
tagProjectLine): tag a project entry unless it already carries the marker as
its parsed project-tag field. -/
def specTagLine (pid line : PStr) : PStr :=
  match parseEntry line with
  | none => strip line
  | some e =>
    if e.project_id = some pid then strip line
    else formatEntry e.id e.helpful e.harmful e.content (some pid)

/-- Spec-side project bucket: as bucketProject but with the spec marker
step. -/
def bucketProjectSpec (p : List PStr) (pid sec : PStr) : List PStr :=
  p.filterMap (fun line =>
    match parseEntry line with
    | none => none
    | some _ =>
      if attributeSection p line = some sec then some (specTagLine pid line) else none)

/-- Spec-side rendering of the non-global overlay (following the spec
wording, for comparison with readPlaybookLines). -/
def specReadPlaybook (st : Store) (pid : PStr) : List PStr :=
  let gst := readPlaybookContent st (pstr "global")
  let pst := readPlaybookContent gst.2 pid
  (sectionPrefixes.map (fun sp =>
    let bucket := bucketGlobal gst.1 sp.1 ++ bucketProjectSpec pst.1 pid sp.1
    if bucket.isEmpty then []
    else (pstr "## " ++ sp.1) :: bucket ++ [[]])).flatten

/-- The C6 counterexample store: the finance project entry has no project-tag
field, but its content mentions the substring "[finance]". -/
def c6store : Store :=
  ⟨[(pstr "global",
     [pstr "## STRATEGIES & INSIGHTS",
      pstr "[str-00001] helpful=0 harmful=0 :: Global strategy",
      []]),
    (pstr "finance",
     [pstr "## STRATEGIES & INSIGHTS",
      pstr "[str-00002] helpful=0 harmful=0 :: Mentions [finance] tag",
      []])], none⟩

/-- The spec example store: a global strategy and a finance strategy, both
with clean contents. -/
def c6wstore : Store :=
  ⟨[(pstr "global",
     [pstr "## STRATEGIES & INSIGHTS",
      pstr "[str-00001] helpful=0 harmful=0 :: Global strategy",
      []]),
    (pstr "finance",
     [pstr "## STRATEGIES & INSIGHTS",
      pstr "[str-00002] helpful=0 harmful=0 :: Finance strategy",
      []])], none⟩

/-! ## Theorems -/

/-- Survivor lines of the Policy A prune pass: exactly the lines that do not
parse, or parse to an entry passing the harmful test. -/
theorem pruneFileA_newLines (t : ℤ) (lines : List PStr) :
    (pruneFileA t lines).1 = lines.filter (fun l =>
      match parseEntry l with
      | some e => !harmfulPrunes e.helpful e.harmful t
      | none => true) := by
  induction lines with
  | nil => rfl
  | cons l ls ih =>
    cases hp : parseEntry l with
    | none => simp [pruneFileA, hp, ih]
    | some e =>
      by_cases hc : harmfulPrunes e.helpful e.harmful t = true <;>
        simp [pruneFileA, hp, hc, ih]

/-- Removed ids of the Policy A prune pass: exactly the ids of parsed
entries failing the harmful test, in line order. -/
theorem pruneFileA_removed (t : ℤ) (lines : List PStr) :
    (pruneFileA t lines).2.1 =
      ((lines.filterMap parseEntry).filter
        (fun e => harmfulPrunes e.helpful e.harmful t)).map (fun e => e.id) := by
  induction lines with
  | nil => rfl
  | cons l ls ih =>
    cases hp : parseEntry l with
    | none => simp [pruneFileA, hp, ih]
    | some e =>
      by_cases hc : harmfulPrunes e.helpful e.harmful t = true <;>
        simp [pruneFileA, hp, hc, ih]

/-- Surviving entries of the Policy A prune pass. -/
theorem pruneFileA_entries (t : ℤ) (lines : List PStr) :
    (pruneFileA t lines).2.2 =
      (lines.filterMap parseEntry).filter
        (fun e => !harmfulPrunes e.helpful e.harmful t) := by
  induction lines with
  | nil => rfl
  | cons l ls ih =>
    cases hp : parseEntry l with
    | none => simp [pruneFileA, hp, ih]
    | some e =>
      by_cases hc : harmfulPrunes e.helpful e.harmful t = true <;>
        simp [pruneFileA, hp, hc, ih]

/-- Pruning a one-entry section under Policy B keeps or drops the entry by
the strict harmful test alone. -/
theorem curateSection_singleton (e : EntryB) (t : ℤ) :
    curateSection [e] t = if harmfulPrunes e.helpful e.harmful t then [] else [e] := by
  by_cases h : harmfulPrunes e.helpful e.harmful t <;>
    simp [curateSection, findDuplicates, findDupGo, fdScan, sortByHelpfulDesc, insDesc, h]

/-- C1: The spec says every public operation takes the store-access guard
once and completes; in the code, get_section and search_playbook enter the
guard and then call read_playbook, which acquires the same non-reentrant
lock again: both operations deadlock on every store and every valid input,
while read_playbook alone completes.  (The repository's own tests call both
operations and would hang.) -/
theorem c1_guard_self_deadlock :
    (∀ (st : Store) (pid : PStr),
        getSectionOp false st (pstr "STRATEGIES & INSIGHTS") pid = .deadlock) ∧
    (∀ (st : Store) (query pid : PStr),
        searchPlaybookOp false st query pid = .deadlock) ∧
    (∀ (st : Store) (pid : PStr),
        readPlaybookOp false st pid = .ok (readPlaybookLines st pid)) :=
  ⟨fun _ _ => rfl, fun _ _ _ => rfl, fun _ _ => rfl⟩

/-- C7: Under both curation policies an entry is removed by harmful pruning
iff harmful > helpful + threshold, strictly: Policy A's surviving lines and
removed ids are characterised by that test, a one-entry section under
Policy B is kept or dropped by it, and at the boundary (2,5,threshold 3) is
kept while (2,6,threshold 3) is removed in both policies. -/
theorem c7_strict_harmful_threshold :
    (∀ (h m : Nat) (t : ℤ), harmfulPrunes h m t = true ↔ (h : ℤ) + t < (m : ℤ))
    ∧ (∀ (t : ℤ) (lines : List PStr),
        (pruneFileA t lines).1 = lines.filter (fun l =>
          match parseEntry l with
          | some e => !harmfulPrunes e.helpful e.harmful t
          | none => true)
        ∧ (pruneFileA t lines).2.1 =
            ((lines.filterMap parseEntry).filter
              (fun e => harmfulPrunes e.helpful e.harmful t)).map (fun e => e.id))
    ∧ (∀ (e : EntryB) (t : ℤ),
        curateSection [e] t = if harmfulPrunes e.helpful e.harmful t then [] else [e])
    ∧ curateSection [⟨pstr "str-00001", 2, 5, pstr "Edge", pstr "raw"⟩] 3 =
        [⟨pstr "str-00001", 2, 5, pstr "Edge", pstr "raw"⟩]
    ∧ curateSection [⟨pstr "str-00001", 2, 6, pstr "Edge", pstr "raw"⟩] 3 = []
    ∧ (pruneFileA 3 [pstr "[str-00001] helpful=2 harmful=5 :: Edge"]).1 =
        [pstr "[str-00001] helpful=2 harmful=5 :: Edge"]
    ∧ (pruneFileA 3 [pstr "[str-00002] helpful=2 harmful=6 :: Edge"]).2.1 =
        [pstr "str-00002"] := by
  refine ⟨fun h m t => by simp [harmfulPrunes],
    fun t lines => ⟨pruneFileA_newLines t lines, pruneFileA_removed t lines⟩,
    curateSection_singleton, ?_, ?_, ?_, ?_⟩
  · decide
  · decide
  · decide
  · decide

/-! ### Helper lemmas for the entry codec -/

theorem takeWhile_append_of_all {p : Char → Bool} {xs ys : PStr}
    (hx : ∀ c ∈ xs, p c = true) (hy : ys.takeWhile p = []) :
    (xs ++ ys).takeWhile p = xs := by
  induction xs with
  | nil => rw [List.nil_append]; exact hy
  | cons c cs ih =>
    simp only [List.cons_append, List.takeWhile_cons, hx c (by simp)]
    simp [ih (fun d hd => hx d (by simp [hd]))]

theorem dropWhile_append_of_all {p : Char → Bool} {xs ys : PStr}
    (hx : ∀ c ∈ xs, p c = true) (hy : ys.dropWhile p = ys) :
    (xs ++ ys).dropWhile p = ys := by
  induction xs with
  | nil => rw [List.nil_append]; exact hy
  | cons c cs ih =>
    simp only [List.cons_append, List.dropWhile_cons, hx c (by simp)]
    simp [ih (fun d hd => hx d (by simp [hd]))]

theorem dropWhile_eq_self_of_head {p : Char → Bool} {ys : PStr}
    (h : ∀ c, ys.head? = some c → p c = false) : ys.dropWhile p = ys := by
  cases ys with
  | nil => rfl
  | cons c l => simp [List.dropWhile_cons, h c rfl]

theorem takeWhile_eq_nil_of_head {p : Char → Bool} {ys : PStr}
    (h : ∀ c, ys.head? = some c → p c = false) : ys.takeWhile p = [] := by
  cases ys with
  | nil => rfl
  | cons c l => simp [List.takeWhile_cons, h c rfl]

theorem takeRun1_append {p : Char → Bool} {xs ys : PStr} (hne : xs ≠ [])
    (hx : ∀ c ∈ xs, p c = true) (hy : ∀ c, ys.head? = some c → p c = false) :
    takeRun1 p (xs ++ ys) = some (xs, ys) := by
  have ht := takeWhile_append_of_all hx (takeWhile_eq_nil_of_head hy)
  have hd := dropWhile_append_of_all hx (dropWhile_eq_self_of_head hy)
  simp [takeRun1, ht, hd, hne]

theorem isPrefixOf_append_self (lit rest : PStr) :
    lit.isPrefixOf (lit ++ rest) = true := by
  induction lit with
  | nil => simp [List.isPrefixOf]
  | cons c cs ih => simp [List.isPrefixOf, ih]

theorem expectPrefix_append (lit rest : PStr) :
    expectPrefix lit (lit ++ rest) = some rest := by
  simp [expectPrefix, isPrefixOf_append_self, List.drop_left]

theorem expectPrefix_ne {c d : Char} (cs ds : PStr) (h : (c = d) = False) :
    expectPrefix (c :: cs) (d :: ds) = none := by
  simp [expectPrefix, List.isPrefixOf, h]

theorem takeExact_append {p : Char → Bool} {xs : PStr} (ys : PStr) (n : Nat)
    (hlen : xs.length = n) (hx : xs.all p = true) :
    takeExact p n (xs ++ ys) = some (xs, ys) := by
  subst hlen
  simp [takeExact, List.take_left, List.drop_left, hx]

theorem lstrip_cons_of_neg {c : Char} (h : pyWS c = false) (l : PStr) :
    lstrip (c :: l) = c :: l := by
  simp [lstrip, List.dropWhile_cons, h]

theorem dropWhile_self_head {p : Char → Bool} {l : PStr} (h : l.dropWhile p = l) :
    ∀ c, l.head? = some c → p c = false := by
  intro c hc
  cases l with
  | nil => simp at hc
  | cons a t =>
    have hac : a = c := by simpa using hc
    subst hac
    by_contra hpc
    have hp : p a = true := by simpa using hpc
    rw [List.dropWhile_cons, hp] at h
    have hlen := congrArg List.length h
    have hle : (t.dropWhile p).length ≤ t.length :=
      (List.dropWhile_sublist (l := t) p).length_le
    simp only [List.length_cons, if_true] at hlen
    omega

theorem rstrip_append {xs ys : PStr} (hne : ys ≠ []) (hy : rstrip ys = ys) :
    rstrip (xs ++ ys) = xs ++ ys := by
  have h1 : ys.reverse.dropWhile pyWS = ys.reverse := by
    have h2 := congrArg List.reverse hy
    simpa [rstrip] using h2
  rcases hr : ys.reverse with _ | ⟨c, rest⟩
  · exact absurd (by simpa using congrArg List.reverse hr) hne
  · rw [hr] at h1
    have hc : pyWS c = false := dropWhile_self_head h1 c (by simp)
    have hrev : (xs ++ ys).reverse = c :: (rest ++ xs.reverse) := by
      rw [List.reverse_append, hr, List.cons_append]
    rw [rstrip, hrev, List.dropWhile_cons, hc]
    simp only [Bool.false_eq_true, if_false, ← hrev, List.reverse_reverse]

theorem digitVal_digitChar {d : Nat} (h : d < 10) : digitVal (digitChar d) = d := by
  interval_cases d <;> decide

theorem isDigitC_digitChar {d : Nat} (h : d < 10) : isDigitC (digitChar d) = true := by
  interval_cases d <;> decide

theorem digitsToNat_append_last (xs : PStr) (c : Char) :
    digitsToNat (xs ++ [c]) = 10 * digitsToNat xs + digitVal c := by
  simp [digitsToNat, List.foldl_append]

theorem natDigitsAux_spec :
    ∀ fuel n : Nat, n < fuel →
      natDigitsAux fuel n ≠ [] ∧ (∀ c ∈ natDigitsAux fuel n, isDigitC c = true) ∧
      digitsToNat (natDigitsAux fuel n) = n := by
  intro fuel
  induction fuel with
  | zero => intro n h; omega
  | succ f ih =>
    intro n h
    by_cases h10 : n < 10
    · refine ⟨by simp [natDigitsAux, h10], ?_, ?_⟩
      · intro c hc
        simp [natDigitsAux, h10] at hc
        subst hc
        exact isDigitC_digitChar h10
      · simp [natDigitsAux, h10, digitsToNat, digitVal_digitChar h10]
    · have hn0 : 0 < n := by omega
      have hdiv : n / 10 < n := Nat.div_lt_self hn0 (by omega)
      have hrec : n / 10 < f := by omega
      obtain ⟨hne, hall, hval⟩ := ih (n / 10) hrec
      refine ⟨by simp [natDigitsAux, h10], ?_, ?_⟩
      · intro c hc
        simp only [natDigitsAux, if_neg h10, List.mem_append, List.mem_singleton] at hc
        rcases hc with hc | hc
        · exact hall c hc
        · subst hc
          exact isDigitC_digitChar (Nat.mod_lt n (by omega))
      · simp only [natDigitsAux, if_neg h10]
        rw [digitsToNat_append_last, hval, digitVal_digitChar (Nat.mod_lt n (by omega))]
        omega

theorem natDigits_ne_nil (n : Nat) : natDigits n ≠ [] :=
  (natDigitsAux_spec (n + 1) n (by omega)).1

theorem natDigits_all_digits (n : Nat) : ∀ c ∈ natDigits n, isDigitC c = true :=
  (natDigitsAux_spec (n + 1) n (by omega)).2.1

theorem digitsToNat_natDigits (n : Nat) : digitsToNat (natDigits n) = n :=
  (natDigitsAux_spec (n + 1) n (by omega)).2.2

theorem not_pyWS_of_digit {c : Char} (h : isDigitC c = true) : pyWS c = false := by
  by_contra hc
  have hw : pyWS c = true := by simpa using hc
  simp only [pyWS, Bool.or_eq_true, decide_eq_true_eq] at hw
  rcases hw with ((((rfl | rfl) | rfl) | rfl) | rfl) | rfl <;> simp [isDigitC] at h

/-- `\s+(.+)` succeeds on one space followed by stripped, newline-free,
nonempty content, capturing the content exactly. -/
theorem takeWhile_eq_self {p : Char → Bool} {l : PStr} (h : ∀ c ∈ l, p c = true) :
    l.takeWhile p = l := by
  induction l with
  | nil => rfl
  | cons c cs ih =>
    simp [List.takeWhile_cons, h c (by simp), ih (fun d hd => h d (by simp [hd]))]

theorem parseWsContent_space {content : PStr} (hcne : content ≠ [])
    (hchead : lstrip content = content) (hcnl : ∀ ch ∈ content, ch ≠ '\n') :
    parseWsContent (' ' :: content) = some content := by
  have hhead : ∀ c, content.head? = some c → pyWS c = false :=
    dropWhile_self_head hchead
  have htw : content.takeWhile pyWS = [] := takeWhile_eq_nil_of_head hhead
  have hdw : content.dropWhile pyWS = content := dropWhile_eq_self_of_head hhead
  have htake : (' ' :: content).takeWhile pyWS = [' '] := by
    simp [List.takeWhile_cons, htw, pyWS]
  have hdrop : (' ' :: content).dropWhile pyWS = content := by
    simp [List.dropWhile_cons, hdw, pyWS]
  have hcemp : content.isEmpty = false := by simpa [List.isEmpty_iff] using hcne
  simp only [parseWsContent, htake, hdrop]
  simp [hcemp]
  exact hcnl

theorem head_fail_of_head {ys : PStr} {d : Char} {p : Char → Bool}
    (h0 : ys.head? = some d) (hd : p d = false) :
    ∀ c, ys.head? = some c → p c = false := by
  intro c hc
  rw [h0] at hc
  cases Option.some.inj hc
  exact hd

theorem strip_eq_self {L : PStr} (h1 : lstrip L = L) (h2 : rstrip L = L) :
    strip L = L := by
  rw [strip, h1, h2]

/-- The id sub-grammar on a canonical remainder. -/
theorem parseIdBody_canonical (a b c : Char) (ds X : PStr)
    (ha : isLowerAZ a = true) (hb : isLowerAZ b = true) (hc : isLowerAZ c = true)
    (hds5 : ds.length = 5) (hdsd : ds.all isDigitC = true) :
    parseIdBody (a :: b :: c :: '-' :: (ds ++ (pstr "] helpful=" ++ X))) =
      some ([a, b, c] ++ pstr "-" ++ ds, pstr " helpful=" ++ X) := by
  have e1 : takeExact isLowerAZ 3 (a :: b :: c :: '-' :: (ds ++ (pstr "] helpful=" ++ X)))
      = some ([a, b, c], '-' :: (ds ++ (pstr "] helpful=" ++ X))) := by
    simpa using
      @takeExact_append isLowerAZ [a, b, c] ('-' :: (ds ++ (pstr "] helpful=" ++ X))) 3 rfl
        (by simp [ha, hb, hc])
  have e2 : expectPrefix (pstr "-") ('-' :: (ds ++ (pstr "] helpful=" ++ X)))
      = some (ds ++ (pstr "] helpful=" ++ X)) :=
    expectPrefix_append (pstr "-") (ds ++ (pstr "] helpful=" ++ X))
  have e3 : takeExact isDigitC 5 (ds ++ (pstr "] helpful=" ++ X))
      = some (ds, pstr "] helpful=" ++ X) := takeExact_append _ 5 hds5 hdsd
  have e4 : expectPrefix (pstr "]") (pstr "] helpful=" ++ X)
      = some (pstr " helpful=" ++ X) :=
    expectPrefix_append (pstr "]") (pstr " helpful=" ++ X)
  simp only [parseIdBody, e1, e2, e3, e4]

/-- The tail `\s+::\s+(.+)` on a canonical no-tag remainder. -/
theorem parseTail_noTag (content : PStr) (hcne : content ≠ [])
    (hchead : lstrip content = content) (hcnl : ∀ ch ∈ content, ch ≠ '\n') :
    parseTail (pstr " :: " ++ content) = some (none, content) := by
  have e1 : takeRun1 pyWS (pstr " :: " ++ content)
      = some ([' '], pstr ":: " ++ content) := rfl
  have e2 : expectPrefix (pstr "[") (pstr ":: " ++ content) = none := rfl
  have e3 : expectPrefix (pstr "::") (pstr ":: " ++ content) = some (' ' :: content) := rfl
  simp only [parseTail, e1, e2, e3, parseWsContent_space hcne hchead hcnl]

/-- The tail `\s+\[tag\]\s+::\s+(.+)` on a canonical tagged remainder. -/
theorem parseTail_tag (tag content : PStr) (htne : tag ≠ [])
    (htb : ∀ ch ∈ tag, ch ≠ ']') (hcne : content ≠ [])
    (hchead : lstrip content = content) (hcnl : ∀ ch ∈ content, ch ≠ '\n') :
    parseTail (pstr " [" ++ (tag ++ (pstr "] :: " ++ content))) = some (some tag, content) := by
  have e1 : takeRun1 pyWS (pstr " [" ++ (tag ++ (pstr "] :: " ++ content)))
      = some ([' '], pstr "[" ++ (tag ++ (pstr "] :: " ++ content))) := rfl
  have e2 : expectPrefix (pstr "[") (pstr "[" ++ (tag ++ (pstr "] :: " ++ content)))
      = some (tag ++ (pstr "] :: " ++ content)) :=
    expectPrefix_append (pstr "[") (tag ++ (pstr "] :: " ++ content))
  have e3 : takeRun1 (fun ch => ch ≠ ']') (tag ++ (pstr "] :: " ++ content))
      = some (tag, pstr "] :: " ++ content) := by
    refine takeRun1_append htne (fun ch hch => by simpa using htb ch hch) ?_
    exact head_fail_of_head (d := ']') rfl (by simp)
  have e4 : expectPrefix (pstr "]") (pstr "] :: " ++ content)
      = some (pstr " :: " ++ content) :=
    expectPrefix_append (pstr "]") (pstr " :: " ++ content)
  have e5 : takeRun1 pyWS (pstr " :: " ++ content)
      = some ([' '], pstr ":: " ++ content) := rfl
  have e6 : expectPrefix (pstr "::") (pstr ":: " ++ content) = some (' ' :: content) := rfl
  simp only [parseTail, e1, e2, e3, e4, e5, e6, parseWsContent_space hcne hchead hcnl]

/-- _parse_entry on a canonical untagged entry line. -/
theorem parseEntry_canonical_noTag (a b c : Char) (ds hds mds content : PStr)
    (ha : isLowerAZ a = true) (hb : isLowerAZ b = true) (hc : isLowerAZ c = true)
    (hds5 : ds.length = 5) (hdsd : ds.all isDigitC = true)
    (hh : hds ≠ []) (hhd : ∀ ch ∈ hds, isDigitC ch = true)
    (hm : mds ≠ []) (hmd : ∀ ch ∈ mds, isDigitC ch = true)
    (hcne : content ≠ []) (hchead : lstrip content = content)
    (hcnl : ∀ ch ∈ content, ch ≠ '\n')
    (hstrip : strip ('[' :: a :: b :: c :: '-' :: (ds ++ (pstr "] helpful=" ++ (hds ++
        (pstr " harmful=" ++ (mds ++ (pstr " :: " ++ content))))))) =
      '[' :: a :: b :: c :: '-' :: (ds ++ (pstr "] helpful=" ++ (hds ++
        (pstr " harmful=" ++ (mds ++ (pstr " :: " ++ content))))))) :
    parseEntry ('[' :: a :: b :: c :: '-' :: (ds ++ (pstr "] helpful=" ++ (hds ++
        (pstr " harmful=" ++ (mds ++ (pstr " :: " ++ content))))))) =
      some ⟨[a, b, c] ++ pstr "-" ++ ds, digitsToNat hds, digitsToNat mds, none, content⟩ := by
  have eid := parseIdBody_canonical a b c ds
    (hds ++ (pstr " harmful=" ++ (mds ++ (pstr " :: " ++ content)))) ha hb hc hds5 hdsd
  have ehds : takeRun1 isDigitC (hds ++ (pstr " harmful=" ++ (mds ++ (pstr " :: " ++ content))))
      = some (hds, pstr " harmful=" ++ (mds ++ (pstr " :: " ++ content))) :=
    takeRun1_append hh hhd (head_fail_of_head (d := ' ') rfl (by decide))
  have emds : takeRun1 isDigitC (mds ++ (pstr " :: " ++ content))
      = some (mds, pstr " :: " ++ content) :=
    takeRun1_append hm hmd (head_fail_of_head (d := ' ') rfl (by decide))
  have etail := parseTail_noTag content hcne hchead hcnl
  simp only [parseEntry, hstrip]
  have eopen : expectPrefix (pstr "[")
      ('[' :: a :: b :: c :: '-' :: (ds ++ (pstr "] helpful=" ++ (hds ++
        (pstr " harmful=" ++ (mds ++ (pstr " :: " ++ content))))))) =
      some (a :: b :: c :: '-' :: (ds ++ (pstr "] helpful=" ++ (hds ++
        (pstr " harmful=" ++ (mds ++ (pstr " :: " ++ content))))))) := rfl
  have ews1 : takeRun1 pyWS (pstr " helpful=" ++ (hds ++
      (pstr " harmful=" ++ (mds ++ (pstr " :: " ++ content))))) =
      some ([' '], pstr "helpful=" ++ (hds ++
        (pstr " harmful=" ++ (mds ++ (pstr " :: " ++ content))))) := rfl
  have ehelp : expectPrefix (pstr "helpful=") (pstr "helpful=" ++ (hds ++
      (pstr " harmful=" ++ (mds ++ (pstr " :: " ++ content))))) =
      some (hds ++ (pstr " harmful=" ++ (mds ++ (pstr " :: " ++ content)))) :=
    expectPrefix_append (pstr "helpful=") _
  have ews2 : takeRun1 pyWS (pstr " harmful=" ++ (mds ++ (pstr " :: " ++ content))) =
      some ([' '], pstr "harmful=" ++ (mds ++ (pstr " :: " ++ content))) := rfl
  have eharm : expectPrefix (pstr "harmful=") (pstr "harmful=" ++ (mds ++
      (pstr " :: " ++ content))) = some (mds ++ (pstr " :: " ++ content)) :=
    expectPrefix_append (pstr "harmful=") _
  simp only [eopen, eid, ews1, ehelp, ehds, ews2, eharm, emds, etail]

/-- _parse_entry on a canonical tagged entry line. -/
theorem parseEntry_canonical_tag (a b c : Char) (ds hds mds tag content : PStr)
    (ha : isLowerAZ a = true) (hb : isLowerAZ b = true) (hc : isLowerAZ c = true)
    (hds5 : ds.length = 5) (hdsd : ds.all isDigitC = true)
    (hh : hds ≠ []) (hhd : ∀ ch ∈ hds, isDigitC ch = true)
    (hm : mds ≠ []) (hmd : ∀ ch ∈ mds, isDigitC ch = true)
    (htne : tag ≠ []) (htb : ∀ ch ∈ tag, ch ≠ ']')
    (hcne : content ≠ []) (hchead : lstrip content = content)
    (hcnl : ∀ ch ∈ content, ch ≠ '\n')
    (hstrip : strip ('[' :: a :: b :: c :: '-' :: (ds ++ (pstr "] helpful=" ++ (hds ++
        (pstr " harmful=" ++ (mds ++ (pstr " [" ++ (tag ++ (pstr "] :: " ++ content))))))))) =
      '[' :: a :: b :: c :: '-' :: (ds ++ (pstr "] helpful=" ++ (hds ++
        (pstr " harmful=" ++ (mds ++ (pstr " [" ++ (tag ++ (pstr "] :: " ++ content))))))))) :
    parseEntry ('[' :: a :: b :: c :: '-' :: (ds ++ (pstr "] helpful=" ++ (hds ++
        (pstr " harmful=" ++ (mds ++ (pstr " [" ++ (tag ++ (pstr "] :: " ++ content))))))))) =
      some ⟨[a, b, c] ++ pstr "-" ++ ds, digitsToNat hds, digitsToNat mds, some tag, content⟩ := by
  have eid := parseIdBody_canonical a b c ds
    (hds ++ (pstr " harmful=" ++ (mds ++ (pstr " [" ++ (tag ++ (pstr "] :: " ++ content))))))
    ha hb hc hds5 hdsd
  have ehds : takeRun1 isDigitC (hds ++ (pstr " harmful=" ++ (mds ++
      (pstr " [" ++ (tag ++ (pstr "] :: " ++ content)))))) =
      some (hds, pstr " harmful=" ++ (mds ++ (pstr " [" ++ (tag ++ (pstr "] :: " ++ content))))) :=
    takeRun1_append hh hhd (head_fail_of_head (d := ' ') rfl (by decide))
  have emds : takeRun1 isDigitC (mds ++ (pstr " [" ++ (tag ++ (pstr "] :: " ++ content)))) =
      some (mds, pstr " [" ++ (tag ++ (pstr "] :: " ++ content))) :=
    takeRun1_append hm hmd (head_fail_of_head (d := ' ') rfl (by decide))
  have etail := parseTail_tag tag content htne htb hcne hchead hcnl
  simp only [parseEntry, hstrip]
  have eopen : expectPrefix (pstr "[")
      ('[' :: a :: b :: c :: '-' :: (ds ++ (pstr "] helpful=" ++ (hds ++
        (pstr " harmful=" ++ (mds ++ (pstr " [" ++ (tag ++ (pstr "] :: " ++ content))))))))) =
      some (a :: b :: c :: '-' :: (ds ++ (pstr "] helpful=" ++ (hds ++
        (pstr " harmful=" ++ (mds ++ (pstr " [" ++ (tag ++ (pstr "] :: " ++ content))))))))) := rfl
  have ews1 : takeRun1 pyWS (pstr " helpful=" ++ (hds ++
      (pstr " harmful=" ++ (mds ++ (pstr " [" ++ (tag ++ (pstr "] :: " ++ content))))))) =
      some ([' '], pstr "helpful=" ++ (hds ++
        (pstr " harmful=" ++ (mds ++ (pstr " [" ++ (tag ++ (pstr "] :: " ++ content))))))) := rfl
  have ehelp : expectPrefix (pstr "helpful=") (pstr "helpful=" ++ (hds ++
      (pstr " harmful=" ++ (mds ++ (pstr " [" ++ (tag ++ (pstr "] :: " ++ content))))))) =
      some (hds ++ (pstr " harmful=" ++ (mds ++
        (pstr " [" ++ (tag ++ (pstr "] :: " ++ content)))))) :=
    expectPrefix_append (pstr "helpful=") _
  have ews2 : takeRun1 pyWS (pstr " harmful=" ++ (mds ++
      (pstr " [" ++ (tag ++ (pstr "] :: " ++ content))))) =
      some ([' '], pstr "harmful=" ++ (mds ++
        (pstr " [" ++ (tag ++ (pstr "] :: " ++ content))))) := rfl
  have eharm : expectPrefix (pstr "harmful=") (pstr "harmful=" ++ (mds ++
      (pstr " [" ++ (tag ++ (pstr "] :: " ++ content))))) =
      some (mds ++ (pstr " [" ++ (tag ++ (pstr "] :: " ++ content)))) :=
    expectPrefix_append (pstr "harmful=") _
  simp only [eopen, eid, ews1, ehelp, ehds, ews2, eharm, emds, etail]

/-- C9 counterexample: an Entry that is valid as the claim states validity
(well-formed id, non-negative counters, single-line free-form content) whose
content ends in a space does not round-trip: the strip() before matching
loses the trailing space. -/
theorem c9_roundtrip_counterexample :
    parseEntry (formatEntry (pstr "str-00001") 0 0 (pstr "x ")) =
      some ⟨pstr "str-00001", 0, 0, none, pstr "x"⟩ ∧
    ¬ parseEntry (formatEntry (pstr "str-00001") 0 0 (pstr "x ")) =
      some ⟨pstr "str-00001", 0, 0, none, pstr "x "⟩ := by
  constructor
  · decide
  · decide

/-- C9 (amended): decode(encode(e)) = e for both encodings, for every entry
whose content is nonempty, single-line, and neither starts nor ends with
whitespace, and whose project tag (when encoded) is nonempty and free of
`]`. -/
theorem c9_roundtrip_amended (a b c : Char) (ds content : PStr) (h m : Nat)
    (tag : Option PStr)
    (ha : isLowerAZ a = true) (hb : isLowerAZ b = true) (hc : isLowerAZ c = true)
    (hds5 : ds.length = 5) (hdsd : ds.all isDigitC = true)
    (hcne : content ≠ []) (hchead : lstrip content = content)
    (hclast : rstrip content = content) (hcnl : ∀ ch ∈ content, ch ≠ '\n')
    (htag : ∀ tg, tag = some tg → tg ≠ [] ∧ ∀ ch ∈ tg, ch ≠ ']') :
    parseEntry (formatEntry ([a, b, c] ++ pstr "-" ++ ds) h m content tag) =
      some ⟨[a, b, c] ++ pstr "-" ++ ds, h, m, tag, content⟩ := by
  cases tag with
  | none =>
    have hlstrip : lstrip (formatEntry ([a, b, c] ++ pstr "-" ++ ds) h m content none) =
        formatEntry ([a, b, c] ++ pstr "-" ++ ds) h m content none :=
      dropWhile_eq_self_of_head (head_fail_of_head (d := '[') rfl (by decide))
    have hrstrip : rstrip (formatEntry ([a, b, c] ++ pstr "-" ++ ds) h m content none) =
        formatEntry ([a, b, c] ++ pstr "-" ++ ds) h m content none :=
      rstrip_append hcne hclast
    have hstrip := strip_eq_self hlstrip hrstrip
    simp only [formatEntry, List.append_assoc] at hstrip
    have key := parseEntry_canonical_noTag a b c ds (natDigits h) (natDigits m) content
      ha hb hc hds5 hdsd (natDigits_ne_nil h) (natDigits_all_digits h)
      (natDigits_ne_nil m) (natDigits_all_digits m) hcne hchead hcnl hstrip
    simp only [digitsToNat_natDigits] at key
    simp only [formatEntry, List.append_assoc]
    exact key
  | some tg =>
    obtain ⟨htne, htb⟩ := htag tg rfl
    have htemp : tg.isEmpty = false := by simpa [List.isEmpty_iff] using htne
    have hlstrip : lstrip (formatEntry ([a, b, c] ++ pstr "-" ++ ds) h m content (some tg)) =
        formatEntry ([a, b, c] ++ pstr "-" ++ ds) h m content (some tg) := by
      refine dropWhile_eq_self_of_head (head_fail_of_head (d := '[') ?_ (by decide))
      simp only [formatEntry, htemp, Bool.false_eq_true, if_false]
      rfl
    have hrstrip : rstrip (formatEntry ([a, b, c] ++ pstr "-" ++ ds) h m content (some tg)) =
        formatEntry ([a, b, c] ++ pstr "-" ++ ds) h m content (some tg) := by
      simp only [formatEntry, htemp, Bool.false_eq_true, if_false]
      exact rstrip_append hcne hclast
    have hstrip := strip_eq_self hlstrip hrstrip
    simp only [formatEntry, htemp, Bool.false_eq_true, if_false, List.append_assoc] at hstrip
    have key := parseEntry_canonical_tag a b c ds (natDigits h) (natDigits m) tg content
      ha hb hc hds5 hdsd (natDigits_ne_nil h) (natDigits_all_digits h)
      (natDigits_ne_nil m) (natDigits_all_digits m) htne htb hcne hchead hcnl hstrip
    simp only [digitsToNat_natDigits] at key
    simp only [formatEntry, htemp, Bool.false_eq_true, if_false, List.append_assoc]
    exact key

/-- C9 witness: the amended round-trip at concrete entries, with and
without a project tag. -/
theorem c9_roundtrip_amended_witness :
    parseEntry (formatEntry (['s', 't', 'r'] ++ pstr "-" ++ pstr "00001") 5 2
        (pstr "Validate inputs") (some (pstr "finance"))) =
      some ⟨['s', 't', 'r'] ++ pstr "-" ++ pstr "00001", 5, 2, some (pstr "finance"),
        pstr "Validate inputs"⟩ ∧
    parseEntry (formatEntry (['s', 't', 'r'] ++ pstr "-" ++ pstr "00001") 5 2
        (pstr "Validate inputs") none) =
      some ⟨['s', 't', 'r'] ++ pstr "-" ++ pstr "00001", 5, 2, none,
        pstr "Validate inputs"⟩ := by
  constructor
  · exact c9_roundtrip_amended 's' 't' 'r' (pstr "00001") (pstr "Validate inputs") 5 2
      (some (pstr "finance")) (by decide) (by decide) (by decide) (by decide) (by decide)
      (by decide) (by decide) (by decide) (by decide)
      (fun tg htg => by cases htg; exact ⟨by decide, by decide⟩)
  · exact c9_roundtrip_amended 's' 't' 'r' (pstr "00001") (pstr "Validate inputs") 5 2
      none (by decide) (by decide) (by decide) (by decide) (by decide)
      (by decide) (by decide) (by decide) (by decide)
      (fun tg htg => by cases htg)

theorem dropWhile_eq_nil_of_all {p : Char → Bool} {l : PStr}
    (h : ∀ c ∈ l, p c = true) : l.dropWhile p = [] := by
  induction l with
  | nil => rfl
  | cons c cs ih =>
    simp [List.dropWhile_cons, h c (by simp), ih (fun d hd => h d (by simp [hd]))]

theorem takeRun1_space_content {content : PStr} (hchead : lstrip content = content) :
    takeRun1 pyWS (' ' :: content) = some ([' '], content) := by
  have hhead : ∀ c, content.head? = some c → pyWS c = false :=
    dropWhile_self_head hchead
  have htake : (' ' :: content).takeWhile pyWS = [' '] := by
    simp [List.takeWhile_cons, takeWhile_eq_nil_of_head hhead, pyWS]
  have hdrop : (' ' :: content).dropWhile pyWS = content := by
    simp [List.dropWhile_cons, dropWhile_eq_self_of_head hhead, pyWS]
  simp [takeRun1, htake, hdrop]

theorem parseToEnd_self {content : PStr} (hcne : content ≠ [])
    (hcnl : ∀ ch ∈ content, ch ≠ '\n') : parseToEnd content = some content := by
  have h1 : content.takeWhile (fun ch => ch ≠ '\n') = content :=
    takeWhile_eq_self (fun c hc => by simp [hcnl c hc])
  have h2 : content.dropWhile (fun ch => ch ≠ '\n') = [] :=
    dropWhile_eq_nil_of_all (fun c hc => by simp [hcnl c hc])
  simp only [parseToEnd, h1, h2]
  simp [hcne]

/-- curate.py ENTRY_PATTERN on a canonical untagged entry line. -/
theorem entryPatternB_canonical_noTag (a b c : Char) (ds hds mds content : PStr)
    (ha : isLowerAZ a = true) (hb : isLowerAZ b = true) (hc : isLowerAZ c = true)
    (hds5 : ds.length = 5) (hdsd : ds.all isDigitC = true)
    (hh : hds ≠ []) (hhd : ∀ ch ∈ hds, isDigitC ch = true)
    (hm : mds ≠ []) (hmd : ∀ ch ∈ mds, isDigitC ch = true)
    (hcne : content ≠ []) (hchead : lstrip content = content)
    (hcnl : ∀ ch ∈ content, ch ≠ '\n') :
    entryPatternB ('[' :: a :: b :: c :: '-' :: (ds ++ (pstr "] helpful=" ++ (hds ++
        (pstr " harmful=" ++ (mds ++ (pstr " :: " ++ content))))))) =
      some ⟨[a, b, c] ++ pstr "-" ++ ds, digitsToNat hds, digitsToNat mds, content,
        '[' :: a :: b :: c :: '-' :: (ds ++ (pstr "] helpful=" ++ (hds ++
          (pstr " harmful=" ++ (mds ++ (pstr " :: " ++ content))))))⟩ := by
  have eid := parseIdBody_canonical a b c ds
    (hds ++ (pstr " harmful=" ++ (mds ++ (pstr " :: " ++ content)))) ha hb hc hds5 hdsd
  have ehds : takeRun1 isDigitC (hds ++ (pstr " harmful=" ++ (mds ++ (pstr " :: " ++ content))))
      = some (hds, pstr " harmful=" ++ (mds ++ (pstr " :: " ++ content))) :=
    takeRun1_append hh hhd (head_fail_of_head (d := ' ') rfl (by decide))
  have emds : takeRun1 isDigitC (mds ++ (pstr " :: " ++ content))
      = some (mds, pstr " :: " ++ content) :=
    takeRun1_append hm hmd (head_fail_of_head (d := ' ') rfl (by decide))
  have ews1 : takeRun1 pyWS (pstr " helpful=" ++ (hds ++
      (pstr " harmful=" ++ (mds ++ (pstr " :: " ++ content))))) =
      some ([' '], pstr "helpful=" ++ (hds ++
        (pstr " harmful=" ++ (mds ++ (pstr " :: " ++ content))))) := rfl
  have ehelp : expectPrefix (pstr "helpful=") (pstr "helpful=" ++ (hds ++
      (pstr " harmful=" ++ (mds ++ (pstr " :: " ++ content))))) =
      some (hds ++ (pstr " harmful=" ++ (mds ++ (pstr " :: " ++ content)))) :=
    expectPrefix_append (pstr "helpful=") _
  have ews2 : takeRun1 pyWS (pstr " harmful=" ++ (mds ++ (pstr " :: " ++ content))) =
      some ([' '], pstr "harmful=" ++ (mds ++ (pstr " :: " ++ content))) := rfl
  have eharm : expectPrefix (pstr "harmful=") (pstr "harmful=" ++ (mds ++
      (pstr " :: " ++ content))) = some (mds ++ (pstr " :: " ++ content)) :=
    expectPrefix_append (pstr "harmful=") _
  have ews3 : takeRun1 pyWS (pstr " :: " ++ content)
      = some ([' '], pstr ":: " ++ content) := rfl
  have ecolon : expectPrefix (pstr "::") (pstr ":: " ++ content) = some (' ' :: content) := rfl
  have ews4 := takeRun1_space_content hchead
  have eend := parseToEnd_self hcne hcnl
  have eopen : expectPrefix (pstr "[")
      ('[' :: a :: b :: c :: '-' :: (ds ++ (pstr "] helpful=" ++ (hds ++
        (pstr " harmful=" ++ (mds ++ (pstr " :: " ++ content))))))) =
      some (a :: b :: c :: '-' :: (ds ++ (pstr "] helpful=" ++ (hds ++
        (pstr " harmful=" ++ (mds ++ (pstr " :: " ++ content))))))) := rfl
  simp only [entryPatternB, eopen, eid, ehds, emds, ews1, ehelp, ews2, eharm, ews3, ecolon,
    ews4, eend]

/-- curate.py ENTRY_PATTERN returns no entry for a canonical project-tagged
line: the pattern has no project-tag group. -/
theorem entryPatternB_canonical_tag (a b c : Char) (ds hds mds tag content : PStr)
    (ha : isLowerAZ a = true) (hb : isLowerAZ b = true) (hc : isLowerAZ c = true)
    (hds5 : ds.length = 5) (hdsd : ds.all isDigitC = true)
    (hh : hds ≠ []) (hhd : ∀ ch ∈ hds, isDigitC ch = true)
    (hm : mds ≠ []) (hmd : ∀ ch ∈ mds, isDigitC ch = true) :
    entryPatternB ('[' :: a :: b :: c :: '-' :: (ds ++ (pstr "] helpful=" ++ (hds ++
        (pstr " harmful=" ++ (mds ++ (pstr " [" ++ (tag ++ (pstr "] :: " ++ content))))))))) =
      none := by
  have eid := parseIdBody_canonical a b c ds
    (hds ++ (pstr " harmful=" ++ (mds ++ (pstr " [" ++ (tag ++ (pstr "] :: " ++ content))))))
    ha hb hc hds5 hdsd
  have ehds : takeRun1 isDigitC (hds ++ (pstr " harmful=" ++ (mds ++
      (pstr " [" ++ (tag ++ (pstr "] :: " ++ content)))))) =
      some (hds, pstr " harmful=" ++ (mds ++ (pstr " [" ++ (tag ++ (pstr "] :: " ++ content))))) :=
    takeRun1_append hh hhd (head_fail_of_head (d := ' ') rfl (by decide))
  have emds : takeRun1 isDigitC (mds ++ (pstr " [" ++ (tag ++ (pstr "] :: " ++ content)))) =
      some (mds, pstr " [" ++ (tag ++ (pstr "] :: " ++ content))) :=
    takeRun1_append hm hmd (head_fail_of_head (d := ' ') rfl (by decide))
  have ews1 : takeRun1 pyWS (pstr " helpful=" ++ (hds ++
      (pstr " harmful=" ++ (mds ++ (pstr " [" ++ (tag ++ (pstr "] :: " ++ content))))))) =
      some ([' '], pstr "helpful=" ++ (hds ++
        (pstr " harmful=" ++ (mds ++ (pstr " [" ++ (tag ++ (pstr "] :: " ++ content))))))) := rfl
  have ehelp : expectPrefix (pstr "helpful=") (pstr "helpful=" ++ (hds ++
      (pstr " harmful=" ++ (mds ++ (pstr " [" ++ (tag ++ (pstr "] :: " ++ content))))))) =
      some (hds ++ (pstr " harmful=" ++ (mds ++
        (pstr " [" ++ (tag ++ (pstr "] :: " ++ content)))))) :=
    expectPrefix_append (pstr "helpful=") _
  have ews2 : takeRun1 pyWS (pstr " harmful=" ++ (mds ++
      (pstr " [" ++ (tag ++ (pstr "] :: " ++ content))))) =
      some ([' '], pstr "harmful=" ++ (mds ++
        (pstr " [" ++ (tag ++ (pstr "] :: " ++ content))))) := rfl
  have eharm : expectPrefix (pstr "harmful=") (pstr "harmful=" ++ (mds ++
      (pstr " [" ++ (tag ++ (pstr "] :: " ++ content))))) =
      some (mds ++ (pstr " [" ++ (tag ++ (pstr "] :: " ++ content)))) :=
    expectPrefix_append (pstr "harmful=") _
  have ews3 : takeRun1 pyWS (pstr " [" ++ (tag ++ (pstr "] :: " ++ content))) =
      some ([' '], pstr "[" ++ (tag ++ (pstr "] :: " ++ content))) := rfl
  have ecolon : expectPrefix (pstr "::") (pstr "[" ++ (tag ++ (pstr "] :: " ++ content)))
      = none := rfl
  have eopen : expectPrefix (pstr "[")
      ('[' :: a :: b :: c :: '-' :: (ds ++ (pstr "] helpful=" ++ (hds ++
        (pstr " harmful=" ++ (mds ++ (pstr " [" ++ (tag ++ (pstr "] :: " ++ content))))))))) =
      some (a :: b :: c :: '-' :: (ds ++ (pstr "] helpful=" ++ (hds ++
        (pstr " harmful=" ++ (mds ++ (pstr " [" ++ (tag ++ (pstr "] :: " ++ content))))))))) := rfl
  simp only [entryPatternB, eopen, eid, ehds, emds, ews1, ehelp, ews2, eharm, ews3, ecolon]

/-- C5 counterexample: a project-tagged entry line is decoded by
_parse_entry but is not matched by curate.py's ENTRY_PATTERN, so
parse_playbook treats it as a non-entry line and the destructive pass
loses it (the parsed playbook is empty). -/
theorem c5_tagged_line_counterexample :
    parseEntry (pstr "[str-00001] helpful=0 harmful=0 [finance] :: Tip") =
      some ⟨pstr "str-00001", 0, 0, some (pstr "finance"), pstr "Tip"⟩ ∧
    entryPatternB (strip (pstr "[str-00001] helpful=0 harmful=0 [finance] :: Tip")) = none ∧
    parsePlaybookB [pstr "## STRATEGIES & INSIGHTS",
      pstr "[str-00001] helpful=0 harmful=0 [finance] :: Tip"] = [] := by
  refine ⟨by decide, by decide, by decide⟩

/-- C5 (amended): _parse_entry decodes both grammar forms with the fields
correctly extracted, but curate.py's ENTRY_PATTERN decodes only the
untagged form and yields no entry for any well-formed project-tagged line,
which the curation script therefore treats as a non-entry line. -/
theorem c5_both_forms_amended :
    (∀ (a b c : Char) (ds hds mds content : PStr),
      isLowerAZ a = true → isLowerAZ b = true → isLowerAZ c = true →
      ds.length = 5 → ds.all isDigitC = true →
      hds ≠ [] → (∀ ch ∈ hds, isDigitC ch = true) →
      mds ≠ [] → (∀ ch ∈ mds, isDigitC ch = true) →
      content ≠ [] → lstrip content = content → rstrip content = content →
      (∀ ch ∈ content, ch ≠ '\n') →
      parseEntry (pstr "[" ++ [a, b, c] ++ pstr "-" ++ ds ++ pstr "] helpful=" ++ hds ++
          pstr " harmful=" ++ mds ++ pstr " :: " ++ content) =
        some ⟨[a, b, c] ++ pstr "-" ++ ds, digitsToNat hds, digitsToNat mds, none, content⟩) ∧
    (∀ (a b c : Char) (ds hds mds tag content : PStr),
      isLowerAZ a = true → isLowerAZ b = true → isLowerAZ c = true →
      ds.length = 5 → ds.all isDigitC = true →
      hds ≠ [] → (∀ ch ∈ hds, isDigitC ch = true) →
      mds ≠ [] → (∀ ch ∈ mds, isDigitC ch = true) →
      tag ≠ [] → (∀ ch ∈ tag, ch ≠ ']') →
      content ≠ [] → lstrip content = content → rstrip content = content →
      (∀ ch ∈ content, ch ≠ '\n') →
      parseEntry (pstr "[" ++ [a, b, c] ++ pstr "-" ++ ds ++ pstr "] helpful=" ++ hds ++
          pstr " harmful=" ++ mds ++ pstr " [" ++ tag ++ pstr "] :: " ++ content) =
        some ⟨[a, b, c] ++ pstr "-" ++ ds, digitsToNat hds, digitsToNat mds, some tag,
          content⟩) ∧
    (∀ (a b c : Char) (ds hds mds content : PStr),
      isLowerAZ a = true → isLowerAZ b = true → isLowerAZ c = true →
      ds.length = 5 → ds.all isDigitC = true →
      hds ≠ [] → (∀ ch ∈ hds, isDigitC ch = true) →
      mds ≠ [] → (∀ ch ∈ mds, isDigitC ch = true) →
      content ≠ [] → lstrip content = content → (∀ ch ∈ content, ch ≠ '\n') →
      entryPatternB (pstr "[" ++ [a, b, c] ++ pstr "-" ++ ds ++ pstr "] helpful=" ++ hds ++
          pstr " harmful=" ++ mds ++ pstr " :: " ++ content) =
        some ⟨[a, b, c] ++ pstr "-" ++ ds, digitsToNat hds, digitsToNat mds, content,
          '[' :: a :: b :: c :: '-' :: (ds ++ (pstr "] helpful=" ++ (hds ++
            (pstr " harmful=" ++ (mds ++ (pstr " :: " ++ content))))))⟩) ∧
    (∀ (a b c : Char) (ds hds mds tag content : PStr),
      isLowerAZ a = true → isLowerAZ b = true → isLowerAZ c = true →
      ds.length = 5 → ds.all isDigitC = true →
      hds ≠ [] → (∀ ch ∈ hds, isDigitC ch = true) →
      mds ≠ [] → (∀ ch ∈ mds, isDigitC ch = true) →
      entryPatternB (pstr "[" ++ [a, b, c] ++ pstr "-" ++ ds ++ pstr "] helpful=" ++ hds ++
          pstr " harmful=" ++ mds ++ pstr " [" ++ tag ++ pstr "] :: " ++ content) = none) := by
  refine ⟨?_, ?_, ?_, ?_⟩
  · intro a b c ds hds mds content ha hb hc hds5 hdsd hh hhd hm hmd hcne hchead hclast hcnl
    have hlstrip : lstrip (pstr "[" ++ [a, b, c] ++ pstr "-" ++ ds ++ pstr "] helpful=" ++
        hds ++ pstr " harmful=" ++ mds ++ pstr " :: " ++ content) =
        pstr "[" ++ [a, b, c] ++ pstr "-" ++ ds ++ pstr "] helpful=" ++ hds ++
          pstr " harmful=" ++ mds ++ pstr " :: " ++ content :=
      dropWhile_eq_self_of_head (head_fail_of_head (d := '[') rfl (by decide))
    have hrstrip := @rstrip_append
      (pstr "[" ++ [a, b, c] ++ pstr "-" ++ ds ++ pstr "] helpful=" ++ hds ++
        pstr " harmful=" ++ mds ++ pstr " :: ") content hcne hclast
    have hstrip := strip_eq_self hlstrip hrstrip
    simp only [List.append_assoc] at hstrip
    have key := parseEntry_canonical_noTag a b c ds hds mds content
      ha hb hc hds5 hdsd hh hhd hm hmd hcne hchead hcnl hstrip
    simp only [List.append_assoc]
    exact key
  · intro a b c ds hds mds tag content ha hb hc hds5 hdsd hh hhd hm hmd htne htb hcne
      hchead hclast hcnl
    have hlstrip : lstrip (pstr "[" ++ [a, b, c] ++ pstr "-" ++ ds ++ pstr "] helpful=" ++
        hds ++ pstr " harmful=" ++ mds ++ pstr " [" ++ tag ++ pstr "] :: " ++ content) =
        pstr "[" ++ [a, b, c] ++ pstr "-" ++ ds ++ pstr "] helpful=" ++ hds ++
          pstr " harmful=" ++ mds ++ pstr " [" ++ tag ++ pstr "] :: " ++ content :=
      dropWhile_eq_self_of_head (head_fail_of_head (d := '[') rfl (by decide))
    have hrstrip := @rstrip_append
      (pstr "[" ++ [a, b, c] ++ pstr "-" ++ ds ++ pstr "] helpful=" ++ hds ++
        pstr " harmful=" ++ mds ++ pstr " [" ++ tag ++ pstr "] :: ") content hcne hclast
    have hstrip := strip_eq_self hlstrip hrstrip
    simp only [List.append_assoc] at hstrip
    have key := parseEntry_canonical_tag a b c ds hds mds tag content
      ha hb hc hds5 hdsd hh hhd hm hmd htne htb hcne hchead hcnl hstrip
    simp only [List.append_assoc]
    exact key
  · intro a b c ds hds mds content ha hb hc hds5 hdsd hh hhd hm hmd hcne hchead hcnl
    have key := entryPatternB_canonical_noTag a b c ds hds mds content
      ha hb hc hds5 hdsd hh hhd hm hmd hcne hchead hcnl
    simp only [List.append_assoc]
    exact key
  · intro a b c ds hds mds tag content ha hb hc hds5 hdsd hh hhd hm hmd
    have key := entryPatternB_canonical_tag a b c ds hds mds tag content
      ha hb hc hds5 hdsd hh hhd hm hmd
    simp only [List.append_assoc]
    exact key

/-- C5 witness: the amended statement at a concrete untagged and a concrete
tagged entry line. -/
theorem c5_both_forms_amended_witness :
    parseEntry (pstr "[" ++ ['s', 't', 'r'] ++ pstr "-" ++ pstr "00001" ++
        pstr "] helpful=" ++ pstr "3" ++ pstr " harmful=" ++ pstr "1" ++ pstr " [" ++
        pstr "finance" ++ pstr "] :: " ++ pstr "Tip") =
      some ⟨['s', 't', 'r'] ++ pstr "-" ++ pstr "00001", 3, 1, some (pstr "finance"),
        pstr "Tip"⟩ ∧
    entryPatternB (pstr "[" ++ ['s', 't', 'r'] ++ pstr "-" ++ pstr "00001" ++
        pstr "] helpful=" ++ pstr "3" ++ pstr " harmful=" ++ pstr "1" ++ pstr " [" ++
        pstr "finance" ++ pstr "] :: " ++ pstr "Tip") = none := by
  constructor
  · exact c5_both_forms_amended.2.1 's' 't' 'r' (pstr "00001") (pstr "3") (pstr "1")
      (pstr "finance") (pstr "Tip") (by decide) (by decide) (by decide) (by decide)
      (by decide) (by decide) (by decide) (by decide) (by decide) (by decide) (by decide)
      (by decide) (by decide) (by decide) (by decide)
  · exact c5_both_forms_amended.2.2.2 's' 't' 'r' (pstr "00001") (pstr "3") (pstr "1")
      (pstr "finance") (pstr "Tip") (by decide) (by decide) (by decide) (by decide)
      (by decide) (by decide) (by decide) (by decide) (by decide)

/-! ### Lemmas about the SequenceMatcher model -/

theorem foldl_invariant {α β : Type} (P : β → Prop) (Q : α → Prop)
    (f : β → α → β) :
    ∀ (l : List α) (init : β), (∀ x ∈ l, Q x) → P init →
      (∀ s x, P s → Q x → P (f s x)) → P (l.foldl f init)
  | [], init, _, hinit, _ => hinit
  | x :: xs, init, hl, hinit, hstep =>
    foldl_invariant P Q f xs (f init x) (fun y hy => hl y (by simp [hy]))
      (hstep init x hinit (hl x (by simp))) hstep

theorem chain_ge_one (a b : PStr) (alo blo : Nat) : ∀ i j, 1 ≤ chain a b alo blo i j := by
  intro i j
  match i, j with
  | 0, _ => simp [chain]
  | _ + 1, 0 => simp [chain]
  | i + 1, j + 1 =>
    simp only [chain]
    split
    · simp
    · split <;> simp

theorem chain_le (a b : PStr) (alo blo : Nat) :
    ∀ i j, alo ≤ i → blo ≤ j →
      chain a b alo blo i j ≤ i + 1 - alo ∧ chain a b alo blo i j ≤ j + 1 - blo := by
  intro i
  induction i with
  | zero =>
    intro j hi hj
    simp only [chain]
    omega
  | succ i ih =>
    intro j hi hj
    match j with
    | 0 => simp only [chain]; omega
    | j + 1 =>
      simp only [chain]
      split
      · rename_i hyes
        simp only [Bool.or_eq_true, decide_eq_true_eq] at hyes
        omega
      · rename_i hno
        simp only [Bool.or_eq_true, decide_eq_true_eq, not_or] at hno
        split
        · rename_i hhit
          have := ih j (by omega) (by omega)
          omega
        · omega

theorem extendBack_sums (a b : PStr) (alo blo : Nat) :
    ∀ i j k,
      (extendBack a b alo blo i j k).besti + (extendBack a b alo blo i j k).bestsize = i + k ∧
      (extendBack a b alo blo i j k).bestj + (extendBack a b alo blo i j k).bestsize = j + k ∧
      (alo ≤ i → alo ≤ (extendBack a b alo blo i j k).besti) ∧
      (blo ≤ j → blo ≤ (extendBack a b alo blo i j k).bestj) := by
  intro i
  induction i with
  | zero =>
    intro j k
    simp [extendBack]
  | succ i ih =>
    intro j k
    match j with
    | 0 => simp [extendBack]
    | j + 1 =>
      simp only [extendBack]
      split
      · rename_i hg
        simp only [Bool.and_eq_true, decide_eq_true_eq] at hg
        have := ih j (k + 1)
        omega
      · simp

theorem extendFwd_spec (a b : PStr) (bhi i j : Nat) :
    ∀ rem k, k ≤ extendFwd a b bhi i j rem k ∧
      extendFwd a b bhi i j rem k ≤ k + rem ∧
      (j + k ≤ bhi → j + extendFwd a b bhi i j rem k ≤ bhi) := by
  intro rem
  induction rem with
  | zero => intro k; simp [extendFwd]
  | succ rem ih =>
    intro k
    simp only [extendFwd]
    split
    · rename_i hg
      simp only [Bool.and_eq_true, decide_eq_true_eq] at hg
      have := ih (k + 1)
      omega
    · omega

/-- Membership in the inner-loop pair list. -/
theorem mem_flmPairs {a b : PStr} {alo ahi blo bhi : Nat} {p : Nat × Nat}
    (h : p ∈ flmPairs a b alo ahi blo bhi) :
    alo ≤ p.1 ∧ p.1 < ahi ∧ blo ≤ p.2 ∧ p.2 < bhi ∧
      ∃ x, a.get? p.1 = some x ∧ b.get? p.2 = some x ∧ isPopular b x = false := by
  simp only [flmPairs, List.mem_flatten, List.mem_map] at h
  obtain ⟨l, ⟨i, hi, rfl⟩, hp⟩ := h
  simp only [List.mem_map] at hp
  obtain ⟨j, hj, rfl⟩ := hp
  have hirange : alo ≤ i ∧ i < ahi := by
    have := List.mem_range'_1.mp hi
    omega
  show alo ≤ i ∧ i < ahi ∧ blo ≤ j ∧ j < bhi ∧
      ∃ x, a.get? i = some x ∧ b.get? j = some x ∧ isPopular b x = false
  simp only [jsOf] at hj
  cases hga : a.get? i with
  | none => rw [hga] at hj; simp at hj
  | some x =>
    rw [hga] at hj
    simp only [List.mem_filter, Bool.and_eq_true, decide_eq_true_eq] at hj
    obtain ⟨hmem, hblo, hbhi⟩ := hj
    simp only [b2j] at hmem
    by_cases hpop : isPopular b x = true
    · rw [if_pos hpop] at hmem
      simp at hmem
    · rw [if_neg hpop] at hmem
      simp only [occurrences, List.mem_filter, decide_eq_true_eq] at hmem
      exact ⟨hirange.1, hirange.2, hblo, hbhi, x, rfl, hmem.2, by simpa using hpop⟩

/-- Window bounds of the inner-loop best. -/
theorem innerBest_bounds (a b : PStr) (alo ahi blo bhi : Nat)
    (h1 : alo ≤ ahi) (h2 : blo ≤ bhi) :
    alo ≤ (innerBest a b alo ahi blo bhi).besti ∧
    blo ≤ (innerBest a b alo ahi blo bhi).bestj ∧
    (innerBest a b alo ahi blo bhi).besti + (innerBest a b alo ahi blo bhi).bestsize ≤ ahi ∧
    (innerBest a b alo ahi blo bhi).bestj + (innerBest a b alo ahi blo bhi).bestsize ≤ bhi := by
  refine foldl_invariant
    (fun st : Best => alo ≤ st.besti ∧ blo ≤ st.bestj ∧
      st.besti + st.bestsize ≤ ahi ∧ st.bestj + st.bestsize ≤ bhi)
    (fun p : Nat × Nat => alo ≤ p.1 ∧ p.1 < ahi ∧ blo ≤ p.2 ∧ p.2 < bhi)
    (innerStep a b alo blo) _ _ (fun p hp => ?_) ⟨le_refl _, le_refl _, by simp; omega,
      by simp; omega⟩ (fun st p hst hp => ?_)
  · have := mem_flmPairs hp
    exact ⟨this.1, this.2.1, this.2.2.1, this.2.2.2.1⟩
  · simp only [innerStep]
    split
    · rename_i hlt
      have hc := chain_le a b alo blo p.1 p.2 hp.1 hp.2.2.1
      refine ⟨?_, ?_, ?_, ?_⟩ <;> · dsimp only; omega
    · exact hst

/-- Window bounds of find_longest_match. -/
theorem flm_bounds (a b : PStr) (alo ahi blo bhi : Nat)
    (h1 : alo ≤ ahi) (h2 : blo ≤ bhi) :
    alo ≤ (flm a b alo ahi blo bhi).besti ∧
    blo ≤ (flm a b alo ahi blo bhi).bestj ∧
    (flm a b alo ahi blo bhi).besti + (flm a b alo ahi blo bhi).bestsize ≤ ahi ∧
    (flm a b alo ahi blo bhi).bestj + (flm a b alo ahi blo bhi).bestsize ≤ bhi := by
  obtain ⟨hb1, hb2, hb3, hb4⟩ := innerBest_bounds a b alo ahi blo bhi h1 h2
  set st := innerBest a b alo ahi blo bhi with hst
  obtain ⟨he1, he2, he3, he4⟩ := extendBack_sums a b alo blo st.besti st.bestj st.bestsize
  set st2 := extendBack a b alo blo st.besti st.bestj st.bestsize with hst2
  obtain ⟨hf1, hf2, hf3⟩ :=
    extendFwd_spec a b bhi st2.besti st2.bestj (ahi - (st2.besti + st2.bestsize)) st2.bestsize
  simp only [flm, ← hst, ← hst2]
  refine ⟨he3 hb1, he4 hb2, by omega, hf3 (by omega)⟩

/-- The total matched size never exceeds either window length. -/
theorem mtAux_le (a b : PStr) :
    ∀ (fuel alo ahi blo bhi : Nat), alo ≤ ahi → blo ≤ bhi →
      mtAux a b fuel alo ahi blo bhi ≤ ahi - alo ∧
      mtAux a b fuel alo ahi blo bhi ≤ bhi - blo := by
  intro fuel
  induction fuel with
  | zero => intro alo ahi blo bhi h1 h2; simp [mtAux]
  | succ fuel ih =>
    intro alo ahi blo bhi h1 h2
    obtain ⟨hf1, hf2, hf3, hf4⟩ := flm_bounds a b alo ahi blo bhi h1 h2
    simp only [mtAux]
    split
    · omega
    · set m := flm a b alo ahi blo bhi
      have hleft : (if alo < m.besti && blo < m.bestj then
          mtAux a b fuel alo m.besti blo m.bestj else 0) ≤ m.besti - alo ∧
          (if alo < m.besti && blo < m.bestj then
          mtAux a b fuel alo m.besti blo m.bestj else 0) ≤ m.bestj - blo := by
        split
        · rename_i hg
          simp only [Bool.and_eq_true, decide_eq_true_eq] at hg
          exact ih alo m.besti blo m.bestj (by omega) (by omega)
        · omega
      have hright : (if m.besti + m.bestsize < ahi && m.bestj + m.bestsize < bhi then
          mtAux a b fuel (m.besti + m.bestsize) ahi (m.bestj + m.bestsize) bhi else 0) ≤
            ahi - (m.besti + m.bestsize) ∧
          (if m.besti + m.bestsize < ahi && m.bestj + m.bestsize < bhi then
          mtAux a b fuel (m.besti + m.bestsize) ahi (m.bestj + m.bestsize) bhi else 0) ≤
            bhi - (m.bestj + m.bestsize) := by
        split
        · rename_i hg
          simp only [Bool.and_eq_true, decide_eq_true_eq] at hg
          exact ih (m.besti + m.bestsize) ahi (m.bestj + m.bestsize) bhi (by omega) (by omega)
        · omega
      omega

theorem matchTotal_le (a b : PStr) :
    matchTotal a b ≤ a.length ∧ matchTotal a b ≤ b.length := by
  have := mtAux_le a b (a.length + b.length + 1) 0 a.length 0 b.length (by omega) (by omega)
  simpa [matchTotal] using this

/-- ratio() always lies in [0, 1]. -/
theorem ratio_mem_unit (a b : PStr) : 0 ≤ ratio a b ∧ ratio a b ≤ 1 := by
  rw [ratio]
  split
  · norm_num
  · rename_i ht
    have hM := matchTotal_le a b
    have hpos : (0 : ℚ) < (a.length : ℚ) + (b.length : ℚ) := by
      have : 0 < a.length + b.length := by omega
      exact_mod_cast this
    constructor
    · positivity
    · rw [div_le_one hpos]
      have : 2 * matchTotal a b ≤ a.length + b.length := by omega
      exact_mod_cast this

theorem hit_diag {s : PStr} {i j : Nat} (h : hit s s i j = true) :
    hit s s (min i j) (min i j) = true := by
  rcases hgi : s.get? i with _ | x <;> rcases hgj : s.get? j with _ | y <;>
    simp only [hit, hgi, hgj] at h
  · exact absurd h (by simp)
  · exact absurd h (by simp)
  · exact absurd h (by simp)
  · simp only [Bool.and_eq_true, decide_eq_true_eq, Bool.not_eq_true'] at h
    obtain ⟨rfl, hpop⟩ := h
    rcases le_total i j with hle | hle
    · rw [Nat.min_eq_left hle]
      simp only [hit, hgi]
      simp [hpop]
    · rw [Nat.min_eq_right hle]
      simp only [hit, hgj]
      simp [hpop]

theorem chain_zz_succ (s : PStr) (i j : Nat) :
    chain s s 0 0 (i + 1) (j + 1) =
      if hit s s i j then chain s s 0 0 i j + 1 else 1 := by
  simp [chain]

theorem chain_diag_ge (s : PStr) :
    ∀ i j, chain s s 0 0 i j ≤ chain s s 0 0 (min i j) (min i j) := by
  intro i
  induction i with
  | zero =>
    intro j
    have h1 := chain_ge_one s s 0 0 (min 0 j) (min 0 j)
    simp only [chain]
    omega
  | succ i ih =>
    intro j
    match j with
    | 0 =>
      have h1 := chain_ge_one s s 0 0 (min (i + 1) 0) (min (i + 1) 0)
      simp only [chain]
      omega
    | j + 1 =>
      rw [Nat.succ_min_succ, chain_zz_succ]
      by_cases hhit : hit s s i j = true
      · rw [if_pos hhit, chain_zz_succ, if_pos (hit_diag hhit)]
        have := ih j
        omega
      · rw [if_neg hhit]
        exact chain_ge_one s s 0 0 (min i j + 1) (min i j + 1)

theorem mem_flmPairs_of {a b : PStr} {alo ahi blo bhi i j : Nat} {x : Char}
    (h1 : alo ≤ i) (h2 : i < ahi) (h3 : blo ≤ j) (h4 : j < bhi)
    (hga : a.get? i = some x) (hgb : b.get? j = some x)
    (hpop : isPopular b x = false) :
    (i, j) ∈ flmPairs a b alo ahi blo bhi := by
  have hjlen : j < b.length := (List.get?_eq_some.mp hgb).1
  simp only [flmPairs, List.mem_flatten, List.mem_map]
  refine ⟨(jsOf a b blo bhi i).map (fun j => (i, j)), ⟨i, ?_, rfl⟩, ?_⟩
  · exact List.mem_range'_1.mpr ⟨h1, by omega⟩
  · simp only [List.mem_map]
    refine ⟨j, ?_, rfl⟩
    simp only [jsOf, hga, b2j, hpop, Bool.false_eq_true, if_false, occurrences]
    simp only [List.mem_filter, List.mem_range, Bool.and_eq_true, decide_eq_true_eq]
    exact ⟨⟨hjlen, hgb⟩, h3, h4⟩

theorem flmPairs_pairwise (a b : PStr) (alo ahi blo bhi : Nat) :
    List.Pairwise lexLt (flmPairs a b alo ahi blo bhi) := by
  rw [flmPairs, List.pairwise_flatten]
  constructor
  · intro l hl
    simp only [List.mem_map] at hl
    obtain ⟨i, hi, rfl⟩ := hl
    rw [List.pairwise_map]
    have hjs : List.Pairwise (· < ·) (jsOf a b blo bhi i) := by
      simp only [jsOf]
      cases a.get? i with
      | none => simp
      | some c =>
        simp only [b2j]
        split
        · simp
        · exact ((List.pairwise_lt_range _).filter _).filter _
    exact hjs.imp (fun hlt => Or.inr ⟨rfl, hlt⟩)
  · rw [List.pairwise_map]
    have hr : List.Pairwise (· < ·) (List.range' alo (ahi - alo)) := by
      simp [List.pairwise_lt_range']
    refine hr.imp ?_
    intro i1 i2 hlt p hp q hq
    simp only [List.mem_map] at hp hq
    obtain ⟨j1, _, rfl⟩ := hp
    obtain ⟨j2, _, rfl⟩ := hq
    exact Or.inl hlt

theorem innerFold_diag (s : PStr) :
    ∀ (pl : List (Nat × Nat)) (st : Best),
      List.Pairwise lexLt pl →
      (∀ p ∈ pl, p.1 ≠ p.2 →
        chain s s 0 0 p.1 p.2 ≤ st.bestsize ∨
        ∃ q ∈ pl, lexLt q p ∧ q.1 = q.2 ∧
          chain s s 0 0 p.1 p.2 ≤ chain s s 0 0 q.1 q.2) →
      st.besti = st.bestj →
      (pl.foldl (innerStep s s 0 0) st).besti = (pl.foldl (innerStep s s 0 0) st).bestj := by
  intro pl
  induction pl with
  | nil => intro st _ _ hd; simpa using hd
  | cons h t ih =>
    intro st hpw hinv hd
    have hpwc := List.pairwise_cons.mp hpw
    have hsize_mono : st.bestsize ≤ (innerStep s s 0 0 st h).bestsize := by
      simp only [innerStep]
      split
      · rename_i hlt; dsimp only; omega
      · exact le_refl _
    have hsize_chain : chain s s 0 0 h.1 h.2 ≤ (innerStep s s 0 0 st h).bestsize := by
      simp only [innerStep]
      split
      · rename_i hlt; dsimp only; exact le_refl _
      · rename_i hnlt; omega
    have hstep_diag : (innerStep s s 0 0 st h).besti = (innerStep s s 0 0 st h).bestj := by
      simp only [innerStep]
      split
      · rename_i hlt
        by_cases hne : h.1 = h.2
        · dsimp only; rw [hne]
        · rcases hinv h (by simp) hne with hle | ⟨q, hq, hql, hqd, hqge⟩
          · omega
          · rcases List.mem_cons.mp hq with rfl | hqt
            · exact absurd hql (by simp [lexLt])
            · have hhq := hpwc.1 q hqt
              simp only [lexLt] at hhq hql
              omega
      · exact hd
    simp only [List.foldl_cons]
    refine ih (innerStep s s 0 0 st h) hpwc.2 ?_ hstep_diag
    intro p hp hne
    rcases hinv p (by simp [hp]) hne with hle | ⟨q, hq, hql, hqd, hqge⟩
    · exact Or.inl (by omega)
    · rcases List.mem_cons.mp hq with rfl | hqt
      · exact Or.inl (by omega)
      · exact Or.inr ⟨q, hqt, hql, hqd, hqge⟩

theorem innerBest_diag (s : PStr) (ahi bhi : Nat) :
    (innerBest s s 0 ahi 0 bhi).besti = (innerBest s s 0 ahi 0 bhi).bestj := by
  refine innerFold_diag s _ _ (flmPairs_pairwise s s 0 ahi 0 bhi) ?_ rfl
  intro p hp hne
  right
  obtain ⟨h1, h2, h3, h4, x, hga, hgb, hpop⟩ := mem_flmPairs hp
  have hgd : s.get? (min p.1 p.2) = some x := by
    rcases le_total p.1 p.2 with hle | hle
    · rw [Nat.min_eq_left hle]; exact hga
    · rw [Nat.min_eq_right hle]; exact hgb
  have hle1 := Nat.min_le_left p.1 p.2
  have hle2 := Nat.min_le_right p.1 p.2
  have hminor : min p.1 p.2 = p.1 ∨ min p.1 p.2 = p.2 := by
    rcases le_total p.1 p.2 with hle | hle
    · exact Or.inl (Nat.min_eq_left hle)
    · exact Or.inr (Nat.min_eq_right hle)
  refine ⟨(min p.1 p.2, min p.1 p.2),
    mem_flmPairs_of (by omega) (by omega) (by omega) (by omega) hgd hgd hpop, ?_, rfl, ?_⟩
  · simp only [lexLt]
    omega
  · exact chain_diag_ge s p.1 p.2

theorem extendBack_diag (s : PStr) :
    ∀ i k, i ≤ s.length → extendBack s s 0 0 i i k = ⟨0, 0, i + k⟩ := by
  intro i
  induction i with
  | zero => intro k _; simp [extendBack]
  | succ i ih =>
    intro k hle
    have hm : matchAt s s i i = true := by
      rcases hg : s.get? i with _ | x
      · rw [List.get?_eq_none] at hg
        omega
      · simp only [matchAt, hg]
        simp
    simp only [extendBack, hm]
    rw [if_pos (by simp)]
    rw [ih (k + 1) (by omega)]
    simp only [Best.mk.injEq]
    exact ⟨trivial, trivial, by omega⟩

theorem extendFwd_diag (s : PStr) (n : Nat) (hn : n ≤ s.length) :
    ∀ rem k, rem + k = n → extendFwd s s n 0 0 rem k = n := by
  intro rem
  induction rem with
  | zero => intro k hk; simpa [extendFwd] using hk
  | succ rem ih =>
    intro k hk
    have hm : matchAt s s (0 + k) (0 + k) = true := by
      rcases hg : s.get? (0 + k) with _ | x
      · rw [List.get?_eq_none] at hg
        omega
      · simp only [matchAt, hg]
        simp
    simp only [extendFwd, hm]
    rw [if_pos (by simp; omega)]
    exact ih (k + 1) (by omega)

theorem flm_self (s : PStr) : flm s s 0 s.length 0 s.length = ⟨0, 0, s.length⟩ := by
  have hdiag := innerBest_diag s s.length s.length
  obtain ⟨hb1, hb2, hb3, hb4⟩ :=
    innerBest_bounds s s 0 s.length 0 s.length (by omega) (by omega)
  set st := innerBest s s 0 s.length 0 s.length with hst
  simp only [flm, ← hst]
  rw [← hdiag]
  rw [extendBack_diag s st.besti st.bestsize (by omega)]
  dsimp only
  rw [extendFwd_diag s s.length (le_refl _) _ _ (by omega)]

theorem matchTotal_self (s : PStr) : matchTotal s s = s.length := by
  rw [matchTotal]
  by_cases h0 : s.length = 0
  · rw [List.length_eq_zero] at h0
    subst h0
    rfl
  · simp only [mtAux, flm_self]
    rw [if_neg h0]
    simp

theorem ratio_self (s : PStr) : ratio s s = 1 := by
  rw [ratio]
  split
  · rfl
  · rename_i ht
    rw [matchTotal_self]
    have hpos : (s.length : ℚ) + (s.length : ℚ) ≠ 0 := by
      have : 0 < s.length + s.length := by omega
      have h2 : (0 : ℚ) < (s.length : ℚ) + (s.length : ℚ) := by exact_mod_cast this
      exact ne_of_gt h2
    field_simp
    ring

theorem toLower_toUpper (c : Char) : c.toUpper.toLower = c.toLower := by
  by_cases h : 97 ≤ c.toNat ∧ c.toNat ≤ 122
  · have hc : c = Char.ofNat c.toNat := (Char.ofNat_toNat c).symm
    obtain ⟨h1, h2⟩ := h
    rw [hc]
    set n := c.toNat with hn
    interval_cases n <;> decide
  · have hup : c.toUpper = c := by
      simp only [Char.toUpper]
      rw [if_neg h]
    rw [hup]

theorem lowerStr_upperStr (s : PStr) : lowerStr (upperStr s) = lowerStr s := by
  induction s with
  | nil => rfl
  | cons c cs ih =>
    simp only [lowerStr, upperStr, List.map_cons, toLower_toUpper, List.cons.injEq]
    exact ⟨trivial, ih⟩


/-- C10: the similarity matcher of `_similarity` / curate.py `similarity` is
NOT symmetric: with a = "abcb" and b = "bcab", similarity a b = 1/2 while
similarity b a = 3/4 (SequenceMatcher.ratio depends on the argument order
through its b-side occurrence index and first-longest-match tie-breaking),
refuting `similarity(a,b) == similarity(b,a)` for all strings. -/
theorem c10_symmetry_counterexample :
    similarity (pstr "abcb") (pstr "bcab") = 1 / 2 ∧
    similarity (pstr "bcab") (pstr "abcb") = 3 / 4 ∧
    similarity (pstr "abcb") (pstr "bcab") ≠
      similarity (pstr "bcab") (pstr "abcb") := by
  have h1 : similarity (pstr "abcb") (pstr "bcab") = 1 / 2 := by
    rw [similarity, ratio, if_neg (by decide)]
    rw [show matchTotal (lowerStr (pstr "abcb")) (lowerStr (pstr "bcab")) = 2 from by decide]
    rw [show (lowerStr (pstr "abcb")).length = 4 from by decide,
        show (lowerStr (pstr "bcab")).length = 4 from by decide]
    norm_num
  have h2 : similarity (pstr "bcab") (pstr "abcb") = 3 / 4 := by
    rw [similarity, ratio, if_neg (by decide)]
    rw [show matchTotal (lowerStr (pstr "bcab")) (lowerStr (pstr "abcb")) = 3 from by decide]
    rw [show (lowerStr (pstr "bcab")).length = 4 from by decide,
        show (lowerStr (pstr "abcb")).length = 4 from by decide]
    norm_num
  exact ⟨h1, h2, by rw [h1, h2]; norm_num⟩

/-- C10 (amended): what does hold of the matcher: it is a deterministic pure
function with result always in [0, 1], and case folding is exact —
similarity(a, upper(a)) = 1 for every string a. Symmetry fails in general. -/
theorem c10_similarity_amended :
    (∀ a b : PStr, 0 ≤ similarity a b ∧ similarity a b ≤ 1) ∧
    (∀ a : PStr, similarity a (upperStr a) = 1) := by
  constructor
  · intro a b
    exact ratio_mem_unit (lowerStr a) (lowerStr b)
  · intro a
    rw [similarity, lowerStr_upperStr]
    exact ratio_self (lowerStr a)

theorem c2scan :
    (curateScan c2store none 3).2.2 =
      [⟨pstr "str-00001", 1, 0, none, pstr "aaaaaaaaab"⟩,
       ⟨pstr "str-00002", 1, 0, none, pstr "aaaaaaaaac"⟩,
       ⟨pstr "str-00003", 1, 0, none, pstr "aaaaaaaaaa"⟩,
       ⟨pstr "str-00004", 1, 0, none, pstr "aaaaaaaaaa"⟩] := by
  decide

set_option maxRecDepth 8000 in
theorem c2sim12 :
    similarity (pstr "aaaaaaaaab") (pstr "aaaaaaaaac") = 9 / 10 := by
  rw [similarity, ratio, if_neg (by decide)]
  rw [show matchTotal (lowerStr (pstr "aaaaaaaaab")) (lowerStr (pstr "aaaaaaaaac")) = 9
    from by decide]
  rw [show (lowerStr (pstr "aaaaaaaaab")).length = 10 from by decide,
      show (lowerStr (pstr "aaaaaaaaac")).length = 10 from by decide]
  norm_num

set_option maxRecDepth 8000 in
theorem c2sim13 :
    similarity (pstr "aaaaaaaaab") (pstr "aaaaaaaaaa") = 9 / 10 := by
  rw [similarity, ratio, if_neg (by decide)]
  rw [show matchTotal (lowerStr (pstr "aaaaaaaaab")) (lowerStr (pstr "aaaaaaaaaa")) = 9
    from by decide]
  rw [show (lowerStr (pstr "aaaaaaaaab")).length = 10 from by decide,
      show (lowerStr (pstr "aaaaaaaaaa")).length = 10 from by decide]
  norm_num

set_option maxRecDepth 8000 in
theorem c2sim23 :
    similarity (pstr "aaaaaaaaac") (pstr "aaaaaaaaaa") = 9 / 10 := by
  rw [similarity, ratio, if_neg (by decide)]
  rw [show matchTotal (lowerStr (pstr "aaaaaaaaac")) (lowerStr (pstr "aaaaaaaaaa")) = 9
    from by decide]
  rw [show (lowerStr (pstr "aaaaaaaaac")).length = 10 from by decide,
      show (lowerStr (pstr "aaaaaaaaaa")).length = 10 from by decide]
  norm_num

theorem c2sim33 :
    similarity (pstr "aaaaaaaaaa") (pstr "aaaaaaaaaa") = 1 :=
  ratio_self (lowerStr (pstr "aaaaaaaaaa"))

theorem c2dups :
    dupPairs
      [⟨pstr "str-00001", 1, 0, none, pstr "aaaaaaaaab"⟩,
       ⟨pstr "str-00002", 1, 0, none, pstr "aaaaaaaaac"⟩,
       ⟨pstr "str-00003", 1, 0, none, pstr "aaaaaaaaaa"⟩,
       ⟨pstr "str-00004", 1, 0, none, pstr "aaaaaaaaaa"⟩] =
      [(pstr "str-00001", pstr "str-00002", 9 / 10),
       (pstr "str-00001", pstr "str-00003", 9 / 10),
       (pstr "str-00001", pstr "str-00004", 9 / 10),
       (pstr "str-00002", pstr "str-00003", 9 / 10),
       (pstr "str-00002", pstr "str-00004", 9 / 10),
       (pstr "str-00003", pstr "str-00004", 1)] := by
  norm_num [dupPairs, List.filterMap_cons, List.filterMap_nil, c2sim12, c2sim13, c2sim23, c2sim33]

theorem mem_dupPairs_iff (es : List EntryA) (a b : PStr) (q : ℚ) :
    (a, b, q) ∈ dupPairs es ↔
      ∃ i j e1 e2, i < j ∧ es.get? i = some e1 ∧ es.get? j = some e2 ∧
        a = e1.id ∧ b = e2.id ∧ q = similarity e1.content e2.content ∧
        (4 / 5 : ℚ) < q := by
  induction es with
  | nil => simp [dupPairs]
  | cons e rest ih =>
    constructor
    · intro hmem
      rw [dupPairs] at hmem
      rcases List.mem_append.mp hmem with hl | hr
      · obtain ⟨e2, he2, hf⟩ := List.mem_filterMap.mp hl
        dsimp only at hf
        by_cases hc : (4 / 5 : ℚ) < similarity e.content e2.content
        · rw [if_pos hc] at hf
          obtain ⟨rfl, rfl, rfl⟩ : e.id = a ∧ e2.id = b ∧
              similarity e.content e2.content = q := by
            simpa using hf
          obtain ⟨j, hj⟩ := List.mem_iff_get?.mp he2
          exact ⟨0, j + 1, e, e2, by omega, rfl, by simpa using hj, rfl, rfl, rfl, hc⟩
        · rw [if_neg hc] at hf
          cases hf
      · obtain ⟨i, j, e1, e2, hij, hgi, hgj, ha, hb, hq, hgt⟩ := ih.mp hr
        exact ⟨i + 1, j + 1, e1, e2, by omega, by simpa using hgi,
          by simpa using hgj, ha, hb, hq, hgt⟩
    · rintro ⟨i, j, e1, e2, hij, hgi, hgj, rfl, rfl, rfl, hgt⟩
      rw [dupPairs]
      apply List.mem_append.mpr
      match i, j with
      | 0, j + 1 =>
        obtain rfl : e = e1 := by simpa using hgi
        have hj : rest.get? j = some e2 := by simpa using hgj
        refine Or.inl (List.mem_filterMap.mpr ⟨e2, List.get?_mem hj, ?_⟩)
        dsimp only
        rw [if_pos hgt]
      | i + 1, j + 1 =>
        refine Or.inr (ih.mpr ⟨i, j, e1, e2, by omega, by simpa using hgi,
          by simpa using hgj, rfl, rfl, rfl, hgt⟩)

/-- C2: the duplicate report of curate_playbook does NOT show the 5 pairs of
highest similarity. On c2store there are 6 pairs above the 0.8 threshold; the
message shows the first 5 in scan order, all of similarity 9/10, while the
omitted pair (str-00003, str-00004) has similarity 1, strictly greater than
every shown pair. -/
theorem c2_top5_counterexample :
    c2report.dups.length = 6 ∧
    reportOverflow c2report = 1 ∧
    reportShown c2report =
      [(pstr "str-00001", pstr "str-00002", 9 / 10),
       (pstr "str-00001", pstr "str-00003", 9 / 10),
       (pstr "str-00001", pstr "str-00004", 9 / 10),
       (pstr "str-00002", pstr "str-00003", 9 / 10),
       (pstr "str-00002", pstr "str-00004", 9 / 10)] ∧
    (pstr "str-00003", pstr "str-00004", (1 : ℚ)) ∈ c2report.dups ∧
    ∀ p ∈ reportShown c2report, p.2.2 < 1 := by
  have hd : c2report.dups =
      [(pstr "str-00001", pstr "str-00002", 9 / 10),
       (pstr "str-00001", pstr "str-00003", 9 / 10),
       (pstr "str-00001", pstr "str-00004", 9 / 10),
       (pstr "str-00002", pstr "str-00003", 9 / 10),
       (pstr "str-00002", pstr "str-00004", 9 / 10),
       (pstr "str-00003", pstr "str-00004", 1)] := by
    have h0 : c2report.dups = dupPairs (curateScan c2store none 3).2.2 := rfl
    rw [h0, c2scan, c2dups]
  have hshown : reportShown c2report =
      [(pstr "str-00001", pstr "str-00002", 9 / 10),
       (pstr "str-00001", pstr "str-00003", 9 / 10),
       (pstr "str-00001", pstr "str-00004", 9 / 10),
       (pstr "str-00002", pstr "str-00003", 9 / 10),
       (pstr "str-00002", pstr "str-00004", 9 / 10)] := by
    show c2report.dups.take 5 = _
    rw [hd]
    rfl
  refine ⟨by rw [hd]; rfl, ?_, hshown, by rw [hd]; simp, ?_⟩
  · show (if 5 < c2report.dups.length then c2report.dups.length - 5 else 0) = 1
    rw [hd]
    rfl
  · intro p hp
    rw [hshown] at hp
    fin_cases hp <;> norm_num

/-- C2 (amended): the report collects, in scan order, every ordered pair of
surviving entries with similarity strictly above 0.8; when more than 5 pairs
exist the message shows the FIRST 5 pairs in scan order (not the 5 of highest
similarity) together with the count of the remainder. -/
theorem c2_duplicates_amended :
    (∀ (st : Store) (pidOpt : Option PStr) (t : ℤ),
        (curateA st pidOpt t).1.dups = dupPairs (curateScan st pidOpt t).2.2) ∧
    (∀ (es : List EntryA) (a b : PStr) (q : ℚ),
        (a, b, q) ∈ dupPairs es ↔
          ∃ i j e1 e2, i < j ∧ es.get? i = some e1 ∧ es.get? j = some e2 ∧
            a = e1.id ∧ b = e2.id ∧ q = similarity e1.content e2.content ∧
            (4 / 5 : ℚ) < q) ∧
    (∀ r : ReportA, 5 < r.dups.length →
        (reportShown r).length = 5 ∧
        reportShown r ++ r.dups.drop 5 = r.dups ∧
        reportOverflow r = r.dups.length - 5) := by
  refine ⟨fun st pid t => rfl, mem_dupPairs_iff, fun r h5 => ⟨?_, ?_, ?_⟩⟩
  · show (r.dups.take 5).length = 5
    rw [List.length_take]
    omega
  · exact List.take_append_drop 5 r.dups
  · show (if 5 < r.dups.length then r.dups.length - 5 else 0) = r.dups.length - 5
    rw [if_pos h5]

/-- Witness for the amended C2 theorem: the overflow clause applied to a
report with six duplicate pairs. -/
theorem c2_duplicates_amended_witness :
    5 < c2wreport.dups.length ∧
    ((reportShown c2wreport).length = 5 ∧
     reportShown c2wreport ++ c2wreport.dups.drop 5 = c2wreport.dups ∧
     reportOverflow c2wreport = c2wreport.dups.length - 5) :=
  ⟨by decide, c2_duplicates_amended.2.2 c2wreport (by decide)⟩

theorem foldl_max_init_le (l : List Nat) (init : Nat) : init ≤ l.foldl max init := by
  induction l generalizing init with
  | nil => exact le_refl _
  | cons x xs ih => exact le_trans (le_max_left init x) (ih (max init x))

theorem le_foldl_max_of_mem {n : Nat} {l : List Nat} (h : n ∈ l) (init : Nat) :
    n ≤ l.foldl max init := by
  induction l generalizing init with
  | nil => cases h
  | cons x xs ih =>
    rcases List.mem_cons.mp h with rfl | hx
    · exact le_trans (le_max_right init n) (foldl_max_init_le xs _)
    · exact ih hx _

theorem idFold_init_le (st : Store) (pfx : PStr) (pids : List PStr) :
    ∀ init, init ≤ idFold st pfx pids init := by
  induction pids with
  | nil => intro init; exact le_refl _
  | cons p ps ih =>
    intro init
    simp only [idFold, List.foldl_cons]
    rcases hl : lookupFile st p with _ | lines
    · exact ih init
    · exact le_trans (foldl_max_init_le _ init) (ih _)

theorem idFold_le_of_mem (st : Store) (pfx : PStr) :
    ∀ (pids : List PStr) (init : Nat) (pid : PStr), pid ∈ pids →
      ∀ lines, lookupFile st pid = some lines →
        ∀ n ∈ (lines.map (scanIdNums pfx)).flatten, n ≤ idFold st pfx pids init := by
  intro pids
  induction pids with
  | nil => intro init pid h; cases h
  | cons p ps ih =>
    intro init pid hmem lines hl n hn
    rcases List.mem_cons.mp hmem with rfl | hmem
    · simp only [idFold, List.foldl_cons, hl]
      exact le_trans (le_foldl_max_of_mem hn init) (idFold_init_le st pfx ps _)
    · simp only [idFold, List.foldl_cons]
      exact ih _ pid hmem lines hl n hn

theorem nextIdNum_gt (st : Store) (pfx : PStr) (pids : List PStr) (pid : PStr)
    (hmem : pid ∈ pids) (lines : List PStr) (hl : lookupFile st pid = some lines)
    (n : Nat) (hn : n ∈ (lines.map (scanIdNums pfx)).flatten) :
    n < nextIdNum st pfx pids := by
  have h := idFold_le_of_mem st pfx pids 0 pid hmem lines hl n hn
  simp only [nextIdNum]
  omega

/-- C3: the id allocated by add_entry CAN already occur in another project's
playbook file. c3store has no registry, so _load_projects defaults to global
only; the unregistered file "p" already holds str-00002, yet add_entry to
global allocates exactly str-00002. -/
theorem c3_unregistered_collision_counterexample :
    c3store.registry = none ∧
    (addEntry c3store (pstr "STRATEGIES & INSIGHTS") (pstr "New strategy")
        (pstr "global")).1 = some (pstr "str-00002") ∧
    (∃ lines, lookupFile c3store (pstr "p") = some lines ∧
       ∃ line ∈ lines,
         containsSub line (pstr "[str-00002]") = true ∧
         2 ∈ scanIdNums (pstr "str") line) ∧
    pstr "str-00002" = pstr "str" ++ pstr "-" ++ padTo5 (natDigits 2) := by
  refine ⟨rfl, by decide,
    ⟨[pstr "[str-00002] helpful=0 harmful=0 :: Project strategy"], by decide,
     pstr "[str-00002] helpful=0 harmful=0 :: Project strategy", by decide,
     by decide, by decide⟩, by decide⟩

/-- C3 (amended): the allocator guarantees freshness only across the project
files named by _load_projects: the allocated numeric suffix strictly exceeds
every same-prefix suffix present in any listed project's existing file, and
when projects.json is absent only "global" is listed; unregistered files are
never scanned. -/
theorem c3_id_allocation_amended :
    (∀ (st : Store) (pfx : PStr) (pids : List PStr),
        getNextId st pfx pids =
          pfx ++ pstr "-" ++ padTo5 (natDigits (nextIdNum st pfx pids))) ∧
    (∀ (st : Store) (pfx : PStr) (pids : List PStr) (pid : PStr), pid ∈ pids →
        ∀ lines, lookupFile st pid = some lines →
          ∀ line ∈ lines, ∀ n ∈ scanIdNums pfx line, n < nextIdNum st pfx pids) ∧
    (∀ st : Store, st.registry = none → loadProjects st = [pstr "global"]) := by
  refine ⟨fun _ _ _ => rfl, ?_, ?_⟩
  · intro st pfx pids pid hmem lines hl line hline n hn
    refine nextIdNum_gt st pfx pids pid hmem lines hl n ?_
    exact List.mem_flatten.mpr ⟨scanIdNums pfx line, List.mem_map.mpr ⟨line, hline, rfl⟩, hn⟩
  · intro st h
    simp [loadProjects, h]

/-- Witness for the amended C3 theorem on c3store: str-00001 in the global
file stays below the allocated suffix 2, and the absent registry lists only
global. -/
theorem c3_id_allocation_amended_witness :
    (pstr "global" ∈ [pstr "global"] ∧
     lookupFile c3store (pstr "global") =
       some [pstr "## STRATEGIES & INSIGHTS",
             pstr "[str-00001] helpful=0 harmful=0 :: Global strategy",
             []] ∧
     pstr "[str-00001] helpful=0 harmful=0 :: Global strategy" ∈
       [pstr "## STRATEGIES & INSIGHTS",
        pstr "[str-00001] helpful=0 harmful=0 :: Global strategy",
        []] ∧
     1 ∈ scanIdNums (pstr "str")
       (pstr "[str-00001] helpful=0 harmful=0 :: Global strategy") ∧
     1 < nextIdNum c3store (pstr "str") [pstr "global"]) ∧
    (c3store.registry = none ∧ loadProjects c3store = [pstr "global"]) :=
  ⟨⟨by decide, by decide, by decide, by decide,
    c3_id_allocation_amended.2.1 c3store (pstr "str") [pstr "global"]
      (pstr "global") (by decide)
      [pstr "## STRATEGIES & INSIGHTS",
       pstr "[str-00001] helpful=0 harmful=0 :: Global strategy",
       []] (by decide)
      (pstr "[str-00001] helpful=0 harmful=0 :: Global strategy") (by decide)
      1 (by decide)⟩,
   rfl, c3_id_allocation_amended.2.2 c3store rfl⟩

/-- C4: update_counters does NOT leave the project-tag bracket unchanged. On
c4store the tagged entry (helpful=5, harmful=1, tag [finance]) is rewritten by
the +1 helpful update to an entry line whose parse has no project tag: the
re.sub replacement string is built without the tag group. -/
theorem c4_tag_dropped_counterexample :
    (updateCounters c4store (pstr "str-00001") 1 0).1 = some (5, 1, 6, 1) ∧
    lookupFile (updateCounters c4store (pstr "str-00001") 1 0).2 (pstr "global") =
      some [pstr "[str-00001] helpful=6 harmful=1 :: Tagged strategy"] ∧
    (parseEntry (pstr "[str-00001] helpful=5 harmful=1 [finance] :: Tagged strategy")).map
        (fun e => e.project_id) = some (some (pstr "finance")) ∧
    (parseEntry (pstr "[str-00001] helpful=6 harmful=1 :: Tagged strategy")).map
        (fun e => e.project_id) = some none := by
  refine ⟨by decide, by decide, by decide, by decide⟩

theorem updGo_of_no_match (eid : PStr) (hd md : ℤ) (st : Store) :
    ∀ files : List (PStr × List PStr), (∀ f ∈ files, updSearch eid f.2 = none) →
      updGo eid hd md st files = (none, st) := by
  intro files
  induction files with
  | nil => intro _; rfl
  | cons f rest ih =>
    intro h
    rcases f with ⟨pid, lines⟩
    rw [updGo]
    rw [h (pid, lines) (List.mem_cons_self _ _)]
    exact ih (fun g hg => h g (List.mem_cons_of_mem _ hg))

theorem updGo_of_match (eid : PStr) (hd md : ℤ) (st : Store) (pid : PStr)
    (lines : List PStr) (rest : List (PStr × List PStr)) (oh om : Nat)
    (content : PStr) (h : updSearch eid lines = some (oh, om, content)) :
    updGo eid hd md st ((pid, lines) :: rest) =
      (some (oh, om, ((oh : ℤ) + hd).toNat, ((om : ℤ) + md).toNat),
       setFile st pid (lines.map (updSubLine eid
         (formatEntry eid ((oh : ℤ) + hd).toNat ((om : ℤ) + md).toNat content)))) := by
  rw [updGo, h]

theorem updSubLine_of_no_match (eid newEntry line : PStr)
    (h : updMatchLine eid line = none) : updSubLine eid newEntry line = line := by
  rw [updSubLine, h]

theorem lookup_map_setKey (pid q : PStr) (L : List PStr) (h : q ≠ pid) :
    ∀ fs : List (PStr × List PStr),
      (List.find? (fun f => f.1 == q)
          (fs.map (fun f => if f.1 == pid then (f.1, L) else f))).map (fun f => f.2) =
        (List.find? (fun f => f.1 == q) fs).map (fun f => f.2)
  | [] => rfl
  | f :: fs => by
    simp only [List.map_cons, List.find?_cons]
    have hkey : (if f.1 == pid then (f.1, L) else f).1 = f.1 := by split <;> rfl
    rw [hkey]
    cases hq : f.1 == q with
    | true =>
      have hne : (f.1 == pid) = false :=
        beq_eq_false_iff_ne.mpr (fun hc => h ((eq_of_beq hq).symm.trans hc))
      simp [hne]
    | false => exact lookup_map_setKey pid q L h fs

theorem lookupFile_setFile_ne (st : Store) (pid q : PStr) (L : List PStr)
    (h : q ≠ pid) : lookupFile (setFile st pid L) q = lookupFile st q := by
  rw [setFile]
  split
  · exact lookup_map_setKey pid q L h st.files
  · rw [lookupFile, lookupFile]
    dsimp only
    rw [List.find?_append]
    have hne : (pid == q) = false :=
      beq_eq_false_iff_ne.mpr (fun hc => h hc.symm)
    have h2 : List.find? (fun f => f.1 == q) [(pid, L)] = none := by
      simp [List.find?_cons, hne]
    rw [h2]
    cases List.find? (fun f => f.1 == q) st.files <;> rfl

/-- C4 (amended): when update_counters finds the entry it returns the old
counters and the new counters floored at zero (max(0, old+delta), i.e.
Int.toNat), rewrites the matching lines of that one file with a replacement
built from the matched content WITHOUT any project-tag bracket, leaves
non-matching lines and all other files unchanged, and leaves the store
untouched when no file matches. -/
theorem c4_update_counters_amended :
    (∀ (eid : PStr) (hd md : ℤ) (st : Store) (files : List (PStr × List PStr)),
        (∀ f ∈ files, updSearch eid f.2 = none) →
          updGo eid hd md st files = (none, st)) ∧
    (∀ (eid : PStr) (hd md : ℤ) (st : Store) (pid : PStr) (lines : List PStr)
        (rest : List (PStr × List PStr)) (oh om : Nat) (content : PStr),
        updSearch eid lines = some (oh, om, content) →
          updGo eid hd md st ((pid, lines) :: rest) =
            (some (oh, om, ((oh : ℤ) + hd).toNat, ((om : ℤ) + md).toNat),
             setFile st pid (lines.map (updSubLine eid
               (formatEntry eid ((oh : ℤ) + hd).toNat ((om : ℤ) + md).toNat content))))) ∧
    (∀ eid newEntry line, updMatchLine eid line = none →
        updSubLine eid newEntry line = line) ∧
    (∀ (st : Store) (pid q : PStr) (L : List PStr), q ≠ pid →
        lookupFile (setFile st pid L) q = lookupFile st q) ∧
    (∀ z : ℤ, z.toNat = (max 0 z).toNat) := by
  refine ⟨updGo_of_no_match, updGo_of_match, updSubLine_of_no_match,
    fun st pid q L h => lookupFile_setFile_ne st pid q L h, fun z => ?_⟩
  omega

/-- Witness for the amended C4 theorem: each clause applied at a concrete
input — a non-matching file list, the tagged c4store entry, a non-entry
line, a different project name, and a negative delta. -/
theorem c4_update_counters_amended_witness :
    ((∀ f ∈ [((pstr "g" : PStr), [pstr "hello"])], updSearch (pstr "str-00001") f.2 = none) ∧
      updGo (pstr "str-00001") 1 0 c4store [(pstr "g", [pstr "hello"])] = (none, c4store)) ∧
    (updSearch (pstr "str-00001")
        [pstr "[str-00001] helpful=5 harmful=1 [finance] :: Tagged strategy"] =
        some (5, 1, pstr "Tagged strategy") ∧
      updGo (pstr "str-00001") 1 0 c4store
          [(pstr "global",
            [pstr "[str-00001] helpful=5 harmful=1 [finance] :: Tagged strategy"])] =
        (some (5, 1, ((5 : ℤ) + 1).toNat, ((1 : ℤ) + 0).toNat),
         setFile c4store (pstr "global")
           ([pstr "[str-00001] helpful=5 harmful=1 [finance] :: Tagged strategy"].map
             (updSubLine (pstr "str-00001")
               (formatEntry (pstr "str-00001") ((5 : ℤ) + 1).toNat ((1 : ℤ) + 0).toNat
                 (pstr "Tagged strategy")))))) ∧
    (updMatchLine (pstr "str-00001") (pstr "hello") = none ∧
      updSubLine (pstr "str-00001") (pstr "x") (pstr "hello") = pstr "hello") ∧
    (pstr "p" ≠ pstr "global" ∧
      lookupFile (setFile c4store (pstr "global") []) (pstr "p") =
        lookupFile c4store (pstr "p")) ∧
    (-3 : ℤ).toNat = (max 0 (-3 : ℤ)).toNat :=
  ⟨⟨by decide, c4_update_counters_amended.1 _ 1 0 c4store _ (by decide)⟩,
   ⟨by decide, c4_update_counters_amended.2.1 _ 1 0 c4store _ _ [] 5 1 _ (by decide)⟩,
   ⟨by decide, c4_update_counters_amended.2.2.1 _ _ _ (by decide)⟩,
   ⟨by decide, c4_update_counters_amended.2.2.2.1 c4store _ _ [] (by decide)⟩,
   c4_update_counters_amended.2.2.2.2 (-3)⟩

theorem mem_pInsert_iff (s : List PStr) (x y : PStr) :
    y ∈ pInsert s x ↔ y ∈ s ∨ y = x := by
  rw [pInsert]
  split
  · rename_i hx
    constructor
    · exact Or.inl
    · rintro (h | rfl)
      · exact h
      · exact hx
  · simp [List.mem_append]

theorem pInsert_subset (s : List PStr) (x : PStr) : ∀ y ∈ s, y ∈ pInsert s x := by
  intro y hy
  exact (mem_pInsert_iff s x y).mpr (Or.inl hy)

theorem mem_pInsert_self (s : List PStr) (x : PStr) : x ∈ pInsert s x := by
  exact (mem_pInsert_iff s x x).mpr (Or.inr rfl)

theorem pInsert_nodup (s : List PStr) (x : PStr) (h : s.Nodup) :
    (pInsert s x).Nodup := by
  rw [pInsert]
  split
  · exact h
  · rename_i hx
    simp [List.nodup_append, h, hx]

theorem fdScan_spec (seed : EntryB) :
    ∀ (bs : List EntryB) (group processed : List PStr),
      (∀ x ∈ group, x ∈ (fdScan seed bs group processed).1) ∧
      (∀ x ∈ (fdScan seed bs group processed).1,
        x ∈ group ∨ (x ∈ bs.map (fun e => e.id) ∧ x ∉ processed ∧
          x ∈ (fdScan seed bs group processed).2)) ∧
      (∀ x ∈ processed, x ∈ (fdScan seed bs group processed).2) ∧
      (group.Nodup → (fdScan seed bs group processed).1.Nodup) := by
  intro bs
  induction bs with
  | nil =>
    intro group processed
    exact ⟨fun x hx => hx, fun x hx => Or.inl hx, fun x hx => hx, fun h => h⟩
  | cons b bs ih =>
    intro group processed
    rw [fdScan]
    by_cases hp : b.id ∈ processed
    · rw [if_pos hp]
      obtain ⟨i1, i2, i3, i4⟩ := ih group processed
      refine ⟨i1, ?_, i3, i4⟩
      intro x hx
      rcases i2 x hx with hg | ⟨hm, hnp, hfp⟩
      · exact Or.inl hg
      · exact Or.inr ⟨by simp [hm], hnp, hfp⟩
    · rw [if_neg hp]
      by_cases hs : simThreshold ≤ similarity seed.content b.content
      · rw [if_pos hs]
        obtain ⟨i1, i2, i3, i4⟩ := ih (pInsert group b.id) (pInsert processed b.id)
        refine ⟨?_, ?_, ?_, ?_⟩
        · intro x hx
          exact i1 x (pInsert_subset group b.id x hx)
        · intro x hx
          rcases i2 x hx with hg | ⟨hm, hnp, hfp⟩
          · rcases (mem_pInsert_iff group b.id x).mp hg with hg | rfl
            · exact Or.inl hg
            · refine Or.inr ⟨by simp, hp, ?_⟩
              exact i3 b.id (mem_pInsert_self processed b.id)
          · refine Or.inr ⟨by simp [hm], ?_, hfp⟩
            intro hc
            exact hnp (pInsert_subset processed b.id x hc)
        · intro x hx
          exact i3 x (pInsert_subset processed b.id x hx)
        · intro h
          exact i4 (pInsert_nodup group b.id h)
      · rw [if_neg hs]
        obtain ⟨i1, i2, i3, i4⟩ := ih group processed
        refine ⟨i1, ?_, i3, i4⟩
        intro x hx
        rcases i2 x hx with hg | ⟨hm, hnp, hfp⟩
        · exact Or.inl hg
        · exact Or.inr ⟨by simp [hm], hnp, hfp⟩

theorem findDupGo_spec (S : List PStr) :
    ∀ (es : List EntryB) (processed : List PStr) (acc : List (List PStr)),
      (∀ e ∈ es, e.id ∈ S) →
      (∀ g ∈ acc, ∀ x ∈ g, x ∈ processed) →
      (acc.flatten).Nodup →
      (∀ g ∈ acc, 2 ≤ g.length ∧ g.Nodup ∧ ∀ x ∈ g, x ∈ S) →
      ((∀ g ∈ findDupGo es processed acc, 2 ≤ g.length ∧ g.Nodup ∧ ∀ x ∈ g, x ∈ S) ∧
        (findDupGo es processed acc).flatten.Nodup) := by
  intro es
  induction es with
  | nil =>
    intro processed acc _ _ h3 h4
    exact ⟨h4, h3⟩
  | cons a rest ih =>
    intro processed acc h1 h2 h3 h4
    rw [findDupGo]
    by_cases hp : a.id ∈ processed
    · rw [if_pos hp]
      exact ih processed acc (fun e he => h1 e (List.mem_cons_of_mem a he)) h2 h3 h4
    · rw [if_neg hp]
      obtain ⟨f1, f2, f3, f4⟩ := fdScan_spec a rest [a.id] processed
      by_cases hlen : 1 < (fdScan a rest [a.id] processed).1.length
      · rw [if_pos hlen]
        have hmemS : ∀ x ∈ (fdScan a rest [a.id] processed).1, x ∈ S := by
          intro x hx
          rcases f2 x hx with hg | ⟨hm, _, _⟩
          · rcases List.mem_singleton.mp hg with rfl
            exact h1 a (List.mem_cons_self a rest)
          · obtain ⟨e, he, rfl⟩ := List.mem_map.mp hm
            exact h1 e (List.mem_cons_of_mem a he)
        have hnotp : ∀ x ∈ (fdScan a rest [a.id] processed).1, x ∉ processed := by
          intro x hx
          rcases f2 x hx with hg | ⟨_, hnp, _⟩
          · rcases List.mem_singleton.mp hg with rfl
            exact hp
          · exact hnp
        have hinproc : ∀ x ∈ (fdScan a rest [a.id] processed).1,
            x ∈ pInsert (fdScan a rest [a.id] processed).2 a.id := by
          intro x hx
          rcases f2 x hx with hg | ⟨_, _, hfp⟩
          · rcases List.mem_singleton.mp hg with rfl
            exact mem_pInsert_self _ _
          · exact pInsert_subset _ _ x hfp
        refine ih (pInsert (fdScan a rest [a.id] processed).2 a.id)
          (acc ++ [(fdScan a rest [a.id] processed).1])
          (fun e he => h1 e (List.mem_cons_of_mem a he)) ?_ ?_ ?_
        · intro g hg x hx
          rcases List.mem_append.mp hg with hg | hg
          · exact pInsert_subset _ _ x (f3 x (h2 g hg x hx))
          · rcases List.mem_singleton.mp hg with rfl
            exact hinproc x hx
        · rw [List.flatten_append]
          rw [List.nodup_append]
          refine ⟨h3, by simpa using f4 (List.nodup_singleton a.id), ?_⟩
          intro x hxa hxg
          have hxp : x ∈ processed := by
            obtain ⟨g, hg, hxg2⟩ := List.mem_flatten.mp hxa
            exact h2 g hg x hxg2
          have hxg3 : x ∈ (fdScan a rest [a.id] processed).1 := by
            simpa using hxg
          exact hnotp x hxg3 hxp
        · intro g hg
          rcases List.mem_append.mp hg with hg | hg
          · exact h4 g hg
          · rcases List.mem_singleton.mp hg with rfl
            exact ⟨hlen, f4 (List.nodup_singleton a.id), hmemS⟩
      · rw [if_neg hlen]
        refine ih (fdScan a rest [a.id] processed).2 acc
          (fun e he => h1 e (List.mem_cons_of_mem a he)) ?_ h3 h4
        intro g hg x hx
        exact f3 x (h2 g hg x hx)

theorem foldlBest_split :
    ∀ (ds : List EntryB) (d : EntryB),
      ∃ pre post,
        d :: ds =
          pre ++ (ds.foldl (fun b e => if b.helpful < e.helpful then e else b) d) :: post ∧
        (∀ e ∈ pre, e.helpful <
          (ds.foldl (fun b e => if b.helpful < e.helpful then e else b) d).helpful) ∧
        (∀ e ∈ d :: ds, e.helpful ≤
          (ds.foldl (fun b e => if b.helpful < e.helpful then e else b) d).helpful) := by
  intro ds
  induction ds with
  | nil =>
    intro d
    refine ⟨[], [], rfl, ?_, ?_⟩
    · intro x hx
      cases hx
    · intro x hx
      rcases List.mem_singleton.mp hx with rfl
      exact le_refl _
  | cons e es ih =>
    intro d
    rw [List.foldl_cons]
    by_cases himp : d.helpful < e.helpful
    · rw [if_pos himp]
      obtain ⟨pre, post, heq, hpre, hbound⟩ := ih e
      refine ⟨d :: pre, post, ?_, ?_, ?_⟩
      · rw [List.cons_append, ← heq]
      · intro x hx
        rcases List.mem_cons.mp hx with rfl | hx
        · exact lt_of_lt_of_le himp (hbound e (List.mem_cons_self e es))
        · exact hpre x hx
      · intro x hx
        rcases List.mem_cons.mp hx with rfl | hx
        · exact le_of_lt (lt_of_lt_of_le himp (hbound e (List.mem_cons_self e es)))
        · exact hbound x hx
    · rw [if_neg himp]
      have hle : e.helpful ≤ d.helpful := Nat.le_of_not_lt himp
      obtain ⟨pre, post, heq, hpre, hbound⟩ := ih d
      cases pre with
      | nil =>
        simp only [List.nil_append] at heq
        injection heq with h1 h2
        refine ⟨[], e :: post, ?_, ?_, ?_⟩
        · rw [List.nil_append, ← h1, ← h2]
        · intro x hx
          cases hx
        · intro x hx
          rcases List.mem_cons.mp hx with rfl | hx
          · rw [← h1]
          · rcases List.mem_cons.mp hx with rfl | hx
            · rw [← h1]
              exact hle
            · exact hbound x (List.mem_cons_of_mem d hx)
      | cons p pre2 =>
        rw [List.cons_append] at heq
        injection heq with h1 h2
        subst h1
        refine ⟨d :: e :: pre2, post, ?_, ?_, ?_⟩
        · rw [List.cons_append, List.cons_append, ← h2]
        · intro x hx
          have hd : d.helpful <
              (es.foldl (fun b e => if b.helpful < e.helpful then e else b) d).helpful :=
            hpre d (List.mem_cons_self d pre2)
          rcases List.mem_cons.mp hx with rfl | hx
          · exact hd
          · rcases List.mem_cons.mp hx with rfl | hx
            · exact lt_of_le_of_lt hle hd
            · exact hpre x (List.mem_cons_of_mem d hx)
        · intro x hx
          rcases List.mem_cons.mp hx with rfl | hx
          · exact hbound x (List.mem_cons_self x es)
          · rcases List.mem_cons.mp hx with rfl | hx
            · exact le_trans hle (hbound d (List.mem_cons_self d es))
            · exact hbound x (List.mem_cons_of_mem d hx)

theorem mergeDuplicates_spec (entries : List EntryB) (group : List PStr)
    (d : EntryB) (ds : List EntryB)
    (hd : entries.filter (fun e => decide (e.id ∈ group)) = d :: ds) :
    ∃ best pre post,
      d :: ds = pre ++ best :: post ∧
      (∀ e ∈ pre, e.helpful < best.helpful) ∧
      (∀ e ∈ d :: ds, e.helpful ≤ best.helpful) ∧
      mergeDuplicates entries group =
        some ⟨best.id, ((d :: ds).map (fun e => e.helpful)).sum,
              ((d :: ds).map (fun e => e.harmful)).sum, best.content,
              formatEntry best.id (((d :: ds).map (fun e => e.helpful)).sum)
                (((d :: ds).map (fun e => e.harmful)).sum) best.content⟩ := by
  obtain ⟨pre, post, heq, hpre, hbound⟩ := foldlBest_split ds d
  refine ⟨_, pre, post, heq, hpre, hbound, ?_⟩
  simp only [mergeDuplicates, hd]

theorem length_insDesc (e : EntryB) : ∀ l : List EntryB, (insDesc e l).length = l.length + 1 := by
  intro l
  induction l with
  | nil => rfl
  | cons x xs ih =>
    rw [insDesc]
    split
    · rfl
    · simp only [List.length_cons, ih]

theorem length_sortByHelpfulDesc (l : List EntryB) :
    (sortByHelpfulDesc l).length = l.length := by
  rw [sortByHelpfulDesc]
  have h : ∀ (xs : List EntryB) (acc : List EntryB),
      (xs.foldl (fun acc e => insDesc e acc) acc).length = acc.length + xs.length := by
    intro xs
    induction xs with
    | nil => intro acc; rfl
    | cons x xs ih =>
      intro acc
      rw [List.foldl_cons, ih, length_insDesc]
      simp only [List.length_cons]
      omega
  rw [h l []]
  simp

theorem length_filter_mem_of_nodup :
    ∀ (L S : List PStr), S.Nodup → L.Nodup → (∀ x ∈ S, x ∈ L) →
      (L.filter (fun x => decide (x ∈ S))).length = S.length := by
  intro L
  induction L with
  | nil =>
    intro S _ _ hsub
    cases S with
    | nil => rfl
    | cons y ys => exact absurd (hsub y (List.mem_cons_self y ys)) (List.not_mem_nil y)
  | cons x L ih =>
    intro S hS hL hsub
    rw [List.filter_cons]
    have hxL : x ∉ L := (List.nodup_cons.mp hL).1
    have hL2 : L.Nodup := (List.nodup_cons.mp hL).2
    by_cases hx : x ∈ S
    · rw [if_pos (by simpa using hx)]
      have herase : ∀ y ∈ S.erase x, y ∈ L := by
        intro y hy
        have hyS : y ∈ S := List.mem_of_mem_erase hy
        have hyx : y ≠ x := (List.Nodup.mem_erase_iff hS).mp hy |>.1
        rcases List.mem_cons.mp (hsub y hyS) with rfl | h
        · exact absurd rfl hyx
        · exact h
      have hfe : L.filter (fun y => decide (y ∈ S)) =
          L.filter (fun y => decide (y ∈ S.erase x)) := by
        apply List.filter_congr
        intro y hy
        have hyx : y ≠ x := fun hc => hxL (hc ▸ hy)
        simp only [decide_eq_decide]
        exact ((List.Nodup.mem_erase_iff hS).trans (and_iff_right hyx)).symm
      rw [List.length_cons, hfe,
        ih (S.erase x) (hS.erase x) hL2 herase,
        List.length_erase_of_mem hx]
      have hpos : 0 < S.length := List.length_pos.mpr (by rintro rfl; cases hx)
      omega
    · rw [if_neg (by simpa using hx)]
      refine ih S hS hL2 ?_
      intro y hy
      rcases List.mem_cons.mp (hsub y hy) with rfl | h
      · exact absurd hy hx
      · exact h

theorem length_filterMap_of_forall_isSome (f : List PStr → Option EntryB) :
    ∀ gs : List (List PStr), (∀ g ∈ gs, ∃ m, f g = some m) →
      (gs.filterMap f).length = gs.length := by
  intro gs
  induction gs with
  | nil => intro _; rfl
  | cons g gs ih =>
    intro h
    obtain ⟨m, hm⟩ := h g (List.mem_cons_self g gs)
    rw [List.filterMap_cons, hm, List.length_cons, List.length_cons,
      ih (fun g hg => h g (List.mem_cons_of_mem _ hg))]

theorem length_filter_add_length_filter_not (p : EntryB → Bool) :
    ∀ l : List EntryB, (l.filter p).length + (l.filter (fun e => !p e)).length = l.length := by
  intro l
  induction l with
  | nil => rfl
  | cons x xs ih =>
    rw [List.filter_cons, List.filter_cons]
    cases hp : p x <;> simp [hp, List.length_cons] <;> omega

theorem curated_count (flt : List EntryB) (gs : List (List PStr))
    (hnd : (flt.map (fun e => e.id)).Nodup)
    (hinv : ∀ g ∈ gs, 2 ≤ g.length ∧ g.Nodup ∧ ∀ x ∈ g, x ∈ flt.map (fun e => e.id))
    (hflat : gs.flatten.Nodup) :
    (sortByHelpfulDesc (gs.filterMap (mergeDuplicates flt) ++
      flt.filter (fun e => !(decide (e.id ∈ gs.flatten))))).length +
      (gs.map (fun g => g.length)).sum = flt.length + gs.length := by
  have hcnt : ∀ g ∈ gs, (flt.filter (fun e => decide (e.id ∈ g))).length = g.length := by
    intro g hgm
    obtain ⟨_, hnd2, hsub⟩ := hinv g hgm
    have h1 := length_filter_mem_of_nodup (flt.map (fun e => e.id)) g hnd2 hnd hsub
    calc (flt.filter (fun e => decide (e.id ∈ g))).length
        = ((flt.map (fun e => e.id)).filter (fun x => decide (x ∈ g))).length := by
          rw [List.filter_map, List.length_map]
          rfl
      _ = g.length := h1
  have hsome : ∀ g ∈ gs, ∃ m, mergeDuplicates flt g = some m := by
    intro g hgm
    have h2 := (hinv g hgm).1
    have hflen := hcnt g hgm
    rcases hfd : flt.filter (fun e => decide (e.id ∈ g)) with _ | ⟨d, ds⟩
    · rw [hfd] at hflen
      simp at hflen
      omega
    · obtain ⟨best, pre, post, _, _, _, hmd⟩ := mergeDuplicates_spec flt g d ds hfd
      exact ⟨_, hmd⟩
  have hmlen : (gs.filterMap (mergeDuplicates flt)).length = gs.length :=
    length_filterMap_of_forall_isSome (mergeDuplicates flt) gs hsome
  have hsplit := length_filter_add_length_filter_not
    (fun e => decide (e.id ∈ gs.flatten)) flt
  simp only [] at hsplit
  have hplen : (flt.filter (fun e => decide (e.id ∈ gs.flatten))).length =
      gs.flatten.length := by
    have hsub : ∀ x ∈ gs.flatten, x ∈ flt.map (fun e => e.id) := by
      intro x hx
      obtain ⟨g, hgm, hxg⟩ := List.mem_flatten.mp hx
      exact (hinv g hgm).2.2 x hxg
    have h1 := length_filter_mem_of_nodup (flt.map (fun e => e.id)) gs.flatten hflat hnd hsub
    calc (flt.filter (fun e => decide (e.id ∈ gs.flatten))).length
        = ((flt.map (fun e => e.id)).filter (fun x => decide (x ∈ gs.flatten))).length := by
          rw [List.filter_map, List.length_map]
          rfl
      _ = gs.flatten.length := h1
  have hfl : gs.flatten.length = (gs.map (fun g => g.length)).sum := by
    rw [List.length_flatten]
  rw [length_sortByHelpfulDesc, List.length_append, hmlen]
  omega

/-- C8: Policy B merge conservation, confirmed (under the distinct-ids
hypothesis the claim itself assumes of the data model). Every duplicate group
has size at least 2 with distinct ids drawn from the pruned section, the
groups are mutually disjoint, each group of size n matches exactly n section
entries and merges to a single entry summing both counters and keeping the id
and content of the first member of maximal helpful, and the section's entry
count decreases by exactly n-1 per group. -/
theorem c8_policyB_merge_conservation (entries : List EntryB) (t : ℤ)
    (filtered : List EntryB) (groups : List (List PStr))
    (hf : filtered = entries.filter (fun e => !harmfulPrunes e.helpful e.harmful t))
    (hg : groups = findDuplicates filtered)
    (hnd : (filtered.map (fun e => e.id)).Nodup) :
    (∀ g ∈ groups, 2 ≤ g.length ∧ g.Nodup) ∧
    groups.flatten.Nodup ∧
    (∀ g ∈ groups, (filtered.filter (fun e => decide (e.id ∈ g))).length = g.length) ∧
    (∀ g ∈ groups, ∃ best pre post,
        filtered.filter (fun e => decide (e.id ∈ g)) = pre ++ best :: post ∧
        (∀ e ∈ pre, e.helpful < best.helpful) ∧
        (∀ e ∈ pre ++ best :: post, e.helpful ≤ best.helpful) ∧
        mergeDuplicates filtered g =
          some ⟨best.id, ((pre ++ best :: post).map (fun e => e.helpful)).sum,
                ((pre ++ best :: post).map (fun e => e.harmful)).sum, best.content,
                formatEntry best.id (((pre ++ best :: post).map (fun e => e.helpful)).sum)
                  (((pre ++ best :: post).map (fun e => e.harmful)).sum) best.content⟩) ∧
    (curateSection entries t).length + (groups.map (fun g => g.length)).sum =
      filtered.length + groups.length := by
  subst hf
  subst hg
  obtain ⟨inv, hflat⟩ := findDupGo_spec
    ((entries.filter (fun e => !harmfulPrunes e.helpful e.harmful t)).map (fun e => e.id))
    (entries.filter (fun e => !harmfulPrunes e.helpful e.harmful t)) [] []
    (fun e he => List.mem_map.mpr ⟨e, he, rfl⟩)
    (fun g hgm => absurd hgm (List.not_mem_nil g))
    (by simp)
    (fun g hgm => absurd hgm (List.not_mem_nil g))
  have hcnt : ∀ g ∈ findDuplicates
      (entries.filter (fun e => !harmfulPrunes e.helpful e.harmful t)),
      ((entries.filter (fun e => !harmfulPrunes e.helpful e.harmful t)).filter
        (fun e => decide (e.id ∈ g))).length = g.length := by
    intro g hgm
    obtain ⟨_, hnd2, hsub⟩ := inv g hgm
    have h1 := length_filter_mem_of_nodup
      ((entries.filter (fun e => !harmfulPrunes e.helpful e.harmful t)).map (fun e => e.id))
      g hnd2 hnd hsub
    calc ((entries.filter (fun e => !harmfulPrunes e.helpful e.harmful t)).filter
          (fun e => decide (e.id ∈ g))).length
        = (((entries.filter (fun e => !harmfulPrunes e.helpful e.harmful t)).map
            (fun e => e.id)).filter (fun x => decide (x ∈ g))).length := by
          rw [List.filter_map, List.length_map]
          rfl
      _ = g.length := h1
  refine ⟨fun g hgm => ⟨(inv g hgm).1, (inv g hgm).2.1⟩, hflat, hcnt, ?_, ?_⟩
  · intro g hgm
    have h2 := (inv g hgm).1
    have hflen := hcnt g hgm
    rcases hfd : (entries.filter (fun e => !harmfulPrunes e.helpful e.harmful t)).filter
        (fun e => decide (e.id ∈ g)) with _ | ⟨d, ds⟩
    · rw [hfd] at hflen
      simp at hflen
      omega
    · obtain ⟨best, pre, post, heq, hpre, hbound, hmd⟩ :=
        mergeDuplicates_spec (entries.filter (fun e => !harmfulPrunes e.helpful e.harmful t))
          g d ds hfd
      rw [heq] at hbound hmd
      exact ⟨best, pre, post, by rw [hfd]; exact heq, hpre, hbound, hmd⟩
  · exact curated_count (entries.filter (fun e => !harmfulPrunes e.helpful e.harmful t))
      (findDuplicates (entries.filter (fun e => !harmfulPrunes e.helpful e.harmful t)))
      hnd inv hflat

theorem c8_findDup_pair :
    findDuplicates [c8w1, c8w2] = [[pstr "str-00001", pstr "str-00002"]] := by
  have hs : simThreshold ≤ similarity c8w1.content c8w2.content := by
    have h1 : similarity c8w1.content c8w2.content = 1 := ratio_self _
    rw [h1, simThreshold]
    norm_num
  have h1 : fdScan c8w1 [c8w2] [c8w1.id] [] =
      ([pstr "str-00001", pstr "str-00002"], [pstr "str-00002"]) := by
    rw [fdScan]
    rw [if_neg (by decide), if_pos hs]
    rw [fdScan]
    decide
  rw [findDuplicates, findDupGo]
  rw [if_neg (by decide)]
  simp only [h1]
  decide

/-- Witness for the C8 theorem: the two identical-content entries form one
duplicate group of size 2, and all clauses hold on it. -/
theorem c8_policyB_merge_conservation_witness :
    (([c8w1, c8w2] : List EntryB) =
        [c8w1, c8w2].filter (fun e => !harmfulPrunes e.helpful e.harmful 3) ∧
     ([[pstr "str-00001", pstr "str-00002"]] : List (List PStr)) = findDuplicates [c8w1, c8w2] ∧
     (([c8w1, c8w2] : List EntryB).map (fun e => e.id)).Nodup) ∧
    ((∀ g ∈ ([[pstr "str-00001", pstr "str-00002"]] : List (List PStr)), 2 ≤ g.length ∧ g.Nodup) ∧
     ([[pstr "str-00001", pstr "str-00002"]] : List (List PStr)).flatten.Nodup ∧
     (∀ g ∈ ([[pstr "str-00001", pstr "str-00002"]] : List (List PStr)),
        (([c8w1, c8w2] : List EntryB).filter (fun e => decide (e.id ∈ g))).length = g.length) ∧
     (∀ g ∈ ([[pstr "str-00001", pstr "str-00002"]] : List (List PStr)), ∃ best pre post,
        ([c8w1, c8w2] : List EntryB).filter (fun e => decide (e.id ∈ g)) = pre ++ best :: post ∧
        (∀ e ∈ pre, e.helpful < best.helpful) ∧
        (∀ e ∈ pre ++ best :: post, e.helpful ≤ best.helpful) ∧
        mergeDuplicates [c8w1, c8w2] g =
          some ⟨best.id, ((pre ++ best :: post).map (fun e => e.helpful)).sum,
                ((pre ++ best :: post).map (fun e => e.harmful)).sum, best.content,
                formatEntry best.id (((pre ++ best :: post).map (fun e => e.helpful)).sum)
                  (((pre ++ best :: post).map (fun e => e.harmful)).sum) best.content⟩) ∧
     (curateSection [c8w1, c8w2] 3).length +
        (([[pstr "str-00001", pstr "str-00002"]] : List (List PStr)).map (fun g => g.length)).sum =
       ([c8w1, c8w2] : List EntryB).length + ([[pstr "str-00001", pstr "str-00002"]] : List (List PStr)).length) :=
  ⟨⟨by decide, c8_findDup_pair.symm, by decide⟩,
   c8_policyB_merge_conservation [c8w1, c8w2] 3 [c8w1, c8w2] [[pstr "str-00001", pstr "str-00002"]]
     (by decide) c8_findDup_pair.symm (by decide)⟩

/-- C6: read_playbook decides whether a project entry "already carries" the
marker by a substring test on the whole line, not by the parsed project-tag
field. In c6store the finance entry has no project-tag field (so the spec
requires tagging), but its content mentions "[finance]", so the code emits it
untagged while the spec rendering tags it. -/
theorem c6_substring_tag_counterexample :
    (readPlaybookLines c6store (pstr "finance")).1 =
      [pstr "## STRATEGIES & INSIGHTS",
       pstr "[str-00001] helpful=0 harmful=0 :: Global strategy",
       pstr "[str-00002] helpful=0 harmful=0 :: Mentions [finance] tag",
       []] ∧
    specReadPlaybook c6store (pstr "finance") =
      [pstr "## STRATEGIES & INSIGHTS",
       pstr "[str-00001] helpful=0 harmful=0 :: Global strategy",
       pstr "[str-00002] helpful=0 harmful=0 [finance] :: Mentions [finance] tag",
       []] ∧
    (parseEntry (pstr "[str-00002] helpful=0 harmful=0 :: Mentions [finance] tag")).map
        (fun e => e.project_id) = some none := by
  refine ⟨by decide, by decide, by decide⟩

/-- C6 (amended): for a non-global project, read_playbook renders exactly the
four canonical sections as header + global entries (stripped, in original
order) + project entries (in original order), each nonempty section followed
by a blank line; a project entry gets the [project_id] marker unless the
SUBSTRING "[project_id]" already occurs anywhere in the line (so an entry is
also left untagged when the marker merely appears in its content, diverging
from the tag-field reading); whenever the line-level tag steps agree on every
project line, the code output coincides with the spec rendering. -/
theorem c6_read_playbook_amended :
    (∀ (st : Store) (pid : PStr),
        pid ≠ pstr "global" →
        (∀ line ∈ (readPlaybookContent (readPlaybookContent st (pstr "global")).2 pid).1,
            tagProjectLine pid line = specTagLine pid line) →
        (readPlaybookLines st pid).1 = specReadPlaybook st pid) ∧
    (∀ pid line, parseEntry line = none → tagProjectLine pid line = strip line) ∧
    (∀ pid line e, parseEntry line = some e →
        tagProjectLine pid line =
          if containsSub line (pstr "[" ++ pid ++ pstr "]") then strip line
          else formatEntry e.id e.helpful e.harmful e.content (some pid)) := by
  refine ⟨?_, ?_, ?_⟩
  · intro st pid hpid hagree
    rw [readPlaybookLines, specReadPlaybook]
    dsimp only
    rw [if_neg hpid]
    apply congrArg List.flatten
    apply List.map_congr_left
    intro sp _
    have hb : bucketProject
        (readPlaybookContent (readPlaybookContent st (pstr "global")).2 pid).1 pid sp.1 =
        bucketProjectSpec
          (readPlaybookContent (readPlaybookContent st (pstr "global")).2 pid).1 pid sp.1 := by
      rw [bucketProject, bucketProjectSpec]
      apply List.filterMap_congr
      intro line hline
      dsimp only
      cases hpe : parseEntry line with
      | none => rfl
      | some e => rw [hagree line hline]
    rw [hb]
  · intro pid line h
    simp only [tagProjectLine, h]
  · intro pid line e h
    simp only [tagProjectLine, h]

/-- Witness for the amended C6 theorem: the spec's own finance example, where
no content mentions "[finance]", so the code output equals the spec rendering
— both contents appear and exactly the project entry is tagged. -/
theorem c6_read_playbook_amended_witness :
    (pstr "finance" ≠ pstr "global" ∧
     (∀ line ∈ (readPlaybookContent (readPlaybookContent c6wstore (pstr "global")).2
         (pstr "finance")).1,
        tagProjectLine (pstr "finance") line = specTagLine (pstr "finance") line) ∧
     (readPlaybookLines c6wstore (pstr "finance")).1 =
       specReadPlaybook c6wstore (pstr "finance")) ∧
    (readPlaybookLines c6wstore (pstr "finance")).1 =
      [pstr "## STRATEGIES & INSIGHTS",
       pstr "[str-00001] helpful=0 harmful=0 :: Global strategy",
       pstr "[str-00002] helpful=0 harmful=0 [finance] :: Finance strategy",
       []] ∧
    (parseEntry (pstr "hello") = none ∧
     tagProjectLine (pstr "finance") (pstr "hello") = strip (pstr "hello")) :=
  ⟨⟨by decide, by decide,
    c6_read_playbook_amended.1 c6wstore (pstr "finance") (by decide) (by decide)⟩,
   by decide,
   by decide, c6_read_playbook_amended.2.1 (pstr "finance") (pstr "hello") (by decide)⟩

end Ace
